import Mathlib

/-!
# Verification of the har-proxy endpoint registry, matcher, ingestion and codec

Shallow embedding of the TypeScript sources:
* `src/server.ts` — endpoint registry (`buildEndpointMap`), matcher
  (`findMatchingEntry`), count (`getEndpointCount`), request handler;
* the parser module — `transformEntry`, `validateHarStructure`,
  `parseHarFile`'s per-entry loop, base64 helpers, `formatEntry`,
  `parseFormattedEntry`.

JavaScript string-keyed objects are modelled as insertion-ordered
association lists with at most one binding per key; machine strings are
Lean `String`s (lists of Unicode scalar values), matching JS strings on
every input exercised here.
-/

/-- A `(name, value)` pair: the shape shared by `Header` and `QueryParam`
in `src/types/index.ts`. -/
structure Header where
  name : String
  value : String
deriving DecidableEq, Repr

/-- The canonical in-memory record of one recorded request/response pair
(`HarEntry` in `src/types/index.ts`). -/
structure HarEntry where
  method : String
  url : String
  path : String
  queryString : List Header
  requestHeaders : List Header
  status : Nat
  responseHeaders : List Header
  responseBody : String
  contentType : String
  timestamp : String
deriving DecidableEq, Repr

/-- `PROXY_PREFIX` from `src/server.ts`. -/
def proxyPrefixStr : String := "/proxy"

/-- `getProxyPath` from `src/server.ts`: prepend the proxy namespace. -/
def getProxyPath (originalPath : String) : String := proxyPrefixStr ++ originalPath

/-- `stripQueryParams` from `src/server.ts`: truncate at the first `?`
(`indexOf('?')` / `substring(0, i)`), identity when no `?` occurs. -/
def stripQueryParams (urlPath : String) : String :=
  ⟨urlPath.data.takeWhile (fun c => c ≠ '?')⟩

/-- JavaScript `String.prototype.startsWith`. -/
def jsStartsWith (s p : String) : Bool := p.data.isPrefixOf s.data

/-- JavaScript `String.prototype.toUpperCase` (character-wise upper-casing;
agrees with Lean's `String.toUpper`, but defined by structural recursion so
that it evaluates inside the kernel). -/
def jsToUpper (s : String) : String := ⟨s.data.map Char.toUpper⟩

/-- JavaScript `String.prototype.toLowerCase`, analogously. -/
def jsToLower (s : String) : String := ⟨s.data.map Char.toLower⟩

/-- A JavaScript object with string keys: an insertion-ordered association
list with at most one binding per key.  Assignment `m[k] = v` updates an
existing binding in place (keeping its position) or appends a new one. -/
abbrev JsObj (α : Type) : Type := List (String × α)

/-- JS property assignment `m[k] = v`. -/
def objSet {α : Type} (m : JsObj α) (k : String) (v : α) : JsObj α :=
  if m.any (fun p => p.1 == k) then m.map (fun p => cond (p.1 == k) (k, v) p)
  else m ++ [(k, v)]

/-- JS property read `m[k]` (`none` plays the role of `undefined`). -/
def objGet {α : Type} (m : JsObj α) (k : String) : Option α :=
  (m.find? (fun p => p.1 == k)).map Prod.snd

/-- JS `Object.keys`. -/
def objKeys {α : Type} (m : JsObj α) : List String := m.map Prod.fst

/-- The endpoint registry (`EndpointMap` in `src/types/index.ts`). -/
abbrev EndpointMap := JsObj HarEntry

/-- The registration key `` `${entry.method}:${proxyPath}` `` computed inside
`buildEndpointMap`. -/
def entryKey (e : HarEntry) : String := e.method ++ ":" ++ getProxyPath e.path

/-- `buildEndpointMap` from `src/server.ts`. -/
def buildEndpointMap (entries : List HarEntry) : EndpointMap :=
  entries.foldl (fun m e => objSet m (entryKey e) e) []

/-- `findMatchingEntry` from `src/server.ts` (`map[key] || null`; an entry
object is never falsy, so `|| null` is the identity on present keys). -/
def findMatchingEntry (method path : String) (map : EndpointMap) : Option HarEntry :=
  objGet map (jsToUpper method ++ ":" ++ path)

/-- `getEndpointCount` from `src/server.ts`: `Object.keys(map).length`. -/
def getEndpointCount (map : EndpointMap) : Nat := (objKeys map).length

/-! ## Association-list lemmas for the JS object model -/

theorem find?_snd_map_replace {α : Type} (m : JsObj α) (k k' : String) (v : α)
    (hne : k' ≠ k) :
    ((m.map fun p => cond (p.1 == k) (k, v) p).find? (fun p => p.1 == k')).map Prod.snd
      = (m.find? (fun p => p.1 == k')).map Prod.snd := by
  induction m with
  | nil => rfl
  | cons p t ih =>
    simp only [List.map_cons, List.find?_cons]
    by_cases hp : p.1 == k
    · have h1 : ((k : String) == k') = false := by
        simp only [beq_eq_false_iff_ne, ne_eq]
        exact fun h => hne h.symm
      have h2 : (p.1 == k') = false := by
        simp only [beq_eq_false_iff_ne, ne_eq, beq_iff_eq.mp hp]
        exact fun h => hne h.symm
      rw [hp, cond_true]
      simp only [h1, h2, cond_false]
      exact ih
    · rw [Bool.not_eq_true] at hp
      rw [hp, cond_false]
      by_cases hp' : p.1 == k'
      · simp only [hp', cond_true, Option.map_some']
      · rw [Bool.not_eq_true] at hp'
        simp only [hp', cond_false]
        exact ih

theorem find?_snd_map_replace_hit {α : Type} (m : JsObj α) (k : String) (v : α)
    (h : m.any (fun p => p.1 == k) = true) :
    ((m.map fun p => cond (p.1 == k) (k, v) p).find? (fun p => p.1 == k)).map Prod.snd
      = some v := by
  induction m with
  | nil => simp at h
  | cons p t ih =>
    simp only [List.map_cons, List.find?_cons]
    by_cases hp : p.1 == k
    · rw [hp, cond_true]
      simp only [beq_self_eq_true, cond_true, Option.map_some']
    · simp only [List.any_cons, Bool.or_eq_true] at h
      rw [Bool.not_eq_true] at hp
      simp only [hp, cond_false]
      rcases h with h | h
      · exact absurd h (by simp [hp])
      · exact ih h

theorem find?_snd_append_single {α : Type} (m : JsObj α) (k k' : String) (v : α)
    (hne : k' ≠ k) :
    ((m ++ [(k, v)]).find? (fun p => p.1 == k')).map Prod.snd
      = (m.find? (fun p => p.1 == k')).map Prod.snd := by
  induction m with
  | nil =>
    have h1 : ((k : String) == k') = false := by
      simp only [beq_eq_false_iff_ne, ne_eq]
      exact fun h => hne h.symm
    simp only [List.nil_append, List.find?_cons, h1, cond_false, List.find?_nil]
  | cons p t ih =>
    simp only [List.cons_append, List.find?_cons]
    by_cases hp' : p.1 == k'
    · simp only [hp', cond_true]
    · rw [Bool.not_eq_true] at hp'
      simp only [hp', cond_false]
      exact ih

theorem objGet_objSet_self {α : Type} (m : JsObj α) (k : String) (v : α) :
    objGet (objSet m k v) k = some v := by
  unfold objSet objGet
  by_cases h : m.any (fun p => p.1 == k)
  · rw [if_pos h]
    exact find?_snd_map_replace_hit m k v h
  · rw [if_neg h]
    induction m with
    | nil => simp [List.find?]
    | cons p t ih =>
      simp only [List.any_cons, Bool.or_eq_true, not_or] at h
      simp only [List.cons_append, List.find?]
      rw [Bool.not_eq_true] at h
      rw [h.1]
      exact ih (by simp [h.2])

theorem objGet_objSet_ne {α : Type} (m : JsObj α) (k k' : String) (v : α)
    (hne : k' ≠ k) : objGet (objSet m k v) k' = objGet m k' := by
  unfold objSet objGet
  by_cases h : m.any (fun p => p.1 == k)
  · rw [if_pos h]
    exact find?_snd_map_replace m k k' v hne
  · rw [if_neg h]
    exact find?_snd_append_single m k k' v hne

/-- `(a :: l).getLast?` in terms of `Option.or`. -/
theorem getLast?_cons_or {α : Type} (a : α) (l : List α) :
    (a :: l).getLast? = Option.or l.getLast? (some a) := by
  induction l generalizing a with
  | nil => rfl
  | cons b t ih =>
    rw [List.getLast?_cons_cons, ih b]
    cases t.getLast? <;> rfl

/-- The workhorse: a lookup in the registry fold returns the last entry (in
input order) whose key matches, falling back to the accumulator. -/
theorem objGet_registrationFold (es : List HarEntry) (acc : EndpointMap) (k : String) :
    objGet (es.foldl (fun m e => objSet m (entryKey e) e) acc) k =
      Option.or ((es.filter (fun e => entryKey e == k)).getLast?) (objGet acc k) := by
  induction es generalizing acc with
  | nil => simp
  | cons e t ih =>
    simp only [List.foldl_cons, List.filter_cons]
    by_cases hk : entryKey e == k
    · have hkeq : entryKey e = k := beq_iff_eq.mp hk
      rw [hk, if_pos rfl, ih, getLast?_cons_or, Option.or_assoc]
      congr 1
      rw [hkeq, objGet_objSet_self]
      cases objGet acc k <;> rfl
    · simp only [hk, if_neg, Bool.false_eq_true, not_false_iff]
      rw [ih, objGet_objSet_ne]
      intro hkk
      exact hk (beq_iff_eq.mpr hkk.symm)

/-- Specialisation to the registry as built by the server. -/
theorem objGet_buildEndpointMap (es : List HarEntry) (k : String) :
    objGet (buildEndpointMap es) k =
      (es.filter (fun e => entryKey e == k)).getLast? := by
  unfold buildEndpointMap
  rw [objGet_registrationFold]
  simp [objGet]

/-- Every binding of the registry comes from an input entry, keyed as
`METHOD:/proxy{path}`. -/
theorem mem_objSet {α : Type} {m : JsObj α} {k : String} {v : α} {q : String × α}
    (h : q ∈ objSet m k v) : q = (k, v) ∨ q ∈ m := by
  unfold objSet at h
  by_cases ha : m.any (fun p => p.1 == k)
  · rw [if_pos ha] at h
    rcases List.mem_map.mp h with ⟨p, hp, hq⟩
    by_cases hpk : p.1 == k
    · left; rw [← hq]; simp [hpk]
    · right; rw [← hq]; simpa [hpk] using hp
  · rw [if_neg ha] at h
    rcases List.mem_append.mp h with h | h
    · right; exact h
    · left; simpa using h

theorem mem_registrationFold {es : List HarEntry} {acc : EndpointMap}
    {q : String × HarEntry}
    (h : q ∈ es.foldl (fun m e => objSet m (entryKey e) e) acc) :
    q ∈ acc ∨ ∃ e ∈ es, q = (entryKey e, e) := by
  induction es generalizing acc with
  | nil => exact Or.inl h
  | cons e t ih =>
    rcases ih h with h' | ⟨e', he', hq⟩
    · rcases mem_objSet h' with h'' | h''
      · exact Or.inr ⟨e, List.mem_cons_self e t, h''⟩
      · exact Or.inl h''
    · exact Or.inr ⟨e', List.mem_cons_of_mem e he', hq⟩

/-! ## Injectivity of the composite key for colon-free methods

HTTP method tokens (RFC 7230 tokens, upper-cased by ingestion) never
contain `:`; under that data-model invariant the key `METHOD:/proxy{path}`
determines the `(method, path)` pair. -/

theorem string_data_append (s t : String) : (s ++ t).data = s.data ++ t.data := rfl

theorem string_ext {s t : String} (h : s.data = t.data) : s = t := by
  cases s; cases t; exact congrArg String.mk (by simpa using h)

theorem append_colon_inj : ∀ {a b xs ys : List Char},
    ':' ∉ a → ':' ∉ b → a ++ ':' :: xs = b ++ ':' :: ys → a = b ∧ xs = ys := by
  intro a
  induction a with
  | nil =>
    intro b xs ys _ hb h
    cases b with
    | nil => simpa using h
    | cons d b' =>
      simp only [List.nil_append, List.cons_append, List.cons.injEq] at h
      exact absurd (h.1 ▸ List.mem_cons_self d b') hb
  | cons c a' ih =>
    intro b xs ys ha hb h
    cases b with
    | nil =>
      simp only [List.cons_append, List.nil_append, List.cons.injEq] at h
      exact absurd (h.1 ▸ List.mem_cons_self c a') ha
    | cons d b' =>
      simp only [List.cons_append, List.cons.injEq] at h
      have ha' : ':' ∉ a' := fun hx => ha (List.mem_cons_of_mem c hx)
      have hb' : ':' ∉ b' := fun hx => hb (List.mem_cons_of_mem d hx)
      have := ih ha' hb' h.2
      exact ⟨by rw [h.1, this.1], this.2⟩

theorem key_parts_inj {m1 m2 p1 p2 : String}
    (h1 : ':' ∉ m1.data) (h2 : ':' ∉ m2.data)
    (h : m1 ++ ":" ++ p1 = m2 ++ ":" ++ p2) : m1 = m2 ∧ p1 = p2 := by
  have hd : m1.data ++ ':' :: p1.data = m2.data ++ ':' :: p2.data := by
    have := congrArg String.data h
    simpa [string_data_append] using this
  have := append_colon_inj h1 h2 hd
  exact ⟨string_ext this.1, string_ext this.2⟩

theorem getProxyPath_inj {p1 p2 : String} (h : getProxyPath p1 = getProxyPath p2) :
    p1 = p2 := by
  unfold getProxyPath at h
  have := congrArg String.data h
  rw [string_data_append, string_data_append] at this
  exact string_ext (List.append_cancel_left this)

theorem jsStartsWith_proxy (p : String) :
    jsStartsWith (getProxyPath p) proxyPrefixStr = true := by
  unfold jsStartsWith getProxyPath
  rw [string_data_append]
  exact List.isPrefixOf_iff_prefix.mpr (List.prefix_append _ _)

/-! ## C1: last-write-wins -/

/-- C1 (confirmed): for any sequence of ≥ 2 entries sharing the same method
and path — the method an upper-case HTTP token, as the spec's data model
guarantees for ingested entries — `findMatchingEntry` on that method and
the `/proxy`-prefixed path returns exactly the last entry of the sequence. -/
theorem C1_last_write_wins (entries : List HarEntry) (M P : String)
    (hlen : 2 ≤ entries.length)
    (hshare : ∀ e ∈ entries, e.method = M ∧ e.path = P)
    (hupper : jsToUpper M = M) :
    findMatchingEntry M (getProxyPath P) (buildEndpointMap entries) = entries.getLast? := by
  unfold findMatchingEntry
  rw [hupper, objGet_buildEndpointMap]
  have hfil : entries.filter (fun e => entryKey e == M ++ ":" ++ getProxyPath P) = entries := by
    apply List.filter_eq_self.mpr
    intro e he
    have h := hshare e he
    simp [entryKey, h.1, h.2]
  rw [hfil]

/-- The two-entry example from the spec: `GET /users` recorded twice. -/
def entryA : HarEntry :=
  { method := "GET", url := "http://localhost/users", path := "/users"
    queryString := [], requestHeaders := [], status := 200
    responseHeaders := [], responseBody := "A"
    contentType := "application/json", timestamp := "t1" }

def entryB : HarEntry :=
  { method := "GET", url := "http://localhost/users", path := "/users"
    queryString := [], requestHeaders := [], status := 404
    responseHeaders := [], responseBody := "B"
    contentType := "application/json", timestamp := "t2" }

/-- C1 witness: the spec's end-to-end example.  The registry built from
`[{GET,/users,200,"A"}, {GET,/users,404,"B"}]` has size 1 and serves the
second entry (status 404, body `"B"`). -/
theorem C1_last_write_wins_witness :
    findMatchingEntry "GET" (getProxyPath "/users") (buildEndpointMap [entryA, entryB])
        = [entryA, entryB].getLast? ∧
    getEndpointCount (buildEndpointMap [entryA, entryB]) = 1 ∧
    (findMatchingEntry "GET" "/proxy/users" (buildEndpointMap [entryA, entryB])).map
        HarEntry.status = some 404 ∧
    (findMatchingEntry "GET" "/proxy/users" (buildEndpointMap [entryA, entryB])).map
        HarEntry.responseBody = some "B" :=
  ⟨C1_last_write_wins [entryA, entryB] "GET" "/users" (by decide) (by decide) (by decide),
   by decide, by decide, by decide⟩

/-! ## C3: namespace gating -/

/-- C3 (confirmed): every registry binding is keyed `METHOD:/proxy{path}`
from one of the input entries; and a request path that does not start with
`/proxy` never matches, given the data-model invariant that methods are
HTTP tokens (no colon). -/
theorem C3_namespace_gating (entries : List HarEntry) (M P : String) :
    (∀ kv ∈ buildEndpointMap entries,
        ∃ e ∈ entries, kv = (e.method ++ ":" ++ getProxyPath e.path, e)) ∧
    ((':' ∉ (jsToUpper M).data) → (∀ e ∈ entries, ':' ∉ e.method.data) →
      jsStartsWith P proxyPrefixStr = false →
      findMatchingEntry M P (buildEndpointMap entries) = none) := by
  constructor
  · intro kv hkv
    rcases mem_registrationFold hkv with h | ⟨e, he, hq⟩
    · simp at h
    · exact ⟨e, he, hq⟩
  · intro hM hes hP
    unfold findMatchingEntry
    rw [objGet_buildEndpointMap]
    have hfil : entries.filter (fun e => entryKey e == jsToUpper M ++ ":" ++ P) = [] := by
      rw [List.filter_eq_nil_iff]
      intro e he
      intro hk
      have hkeq : e.method ++ ":" ++ getProxyPath e.path = jsToUpper M ++ ":" ++ P :=
        beq_iff_eq.mp hk
      have hsplit := key_parts_inj (hes e he) hM hkeq
      rw [← hsplit.2, jsStartsWith_proxy] at hP
      exact Bool.noConfusion hP
    rw [hfil]
    rfl

/-- C3 witness: a single recorded `GET /users` entry, and a request to the
un-prefixed path `/users`, which does not match. -/
theorem C3_namespace_gating_witness :
    findMatchingEntry "GET" "/users" (buildEndpointMap [entryA]) = none :=
  (C3_namespace_gating [entryA] "GET" "/users").2 (by decide) (by decide) (by decide)

/-! ## C7: count accuracy -/

theorem key_not_mem_of_not_any {α : Type} {m : JsObj α} {k : String}
    (h : m.any (fun p => p.1 == k) = false) : k ∉ objKeys m := by
  intro hk
  rcases List.mem_map.mp hk with ⟨p, hp, hfst⟩
  have : m.any (fun p => p.1 == k) = true :=
    List.any_eq_true.mpr ⟨p, hp, by simp [hfst]⟩
  rw [h] at this
  exact Bool.noConfusion this

theorem key_mem_of_any {α : Type} {m : JsObj α} {k : String}
    (h : m.any (fun p => p.1 == k) = true) : k ∈ objKeys m := by
  rcases List.any_eq_true.mp h with ⟨p, hp, hk⟩
  exact List.mem_map.mpr ⟨p, hp, beq_iff_eq.mp hk⟩

theorem objKeys_objSet {α : Type} (m : JsObj α) (k : String) (v : α) :
    objKeys (objSet m k v) =
      if m.any (fun p => p.1 == k) then objKeys m else objKeys m ++ [k] := by
  unfold objSet objKeys
  by_cases h : m.any (fun p => p.1 == k)
  · rw [if_pos h, if_pos h, List.map_map]
    apply List.map_congr_left
    intro p _
    by_cases hpk : p.1 == k
    · simp only [Function.comp_apply, hpk, cond_true]
      exact (beq_iff_eq.mp hpk).symm
    · rw [Bool.not_eq_true] at hpk
      simp only [Function.comp_apply, hpk, cond_false]
  · rw [if_neg h, if_neg h, List.map_append]
    rfl

theorem objKeys_fold_nodup (es : List HarEntry) (acc : EndpointMap)
    (hacc : (objKeys acc).Nodup) :
    (objKeys (es.foldl (fun m e => objSet m (entryKey e) e) acc)).Nodup := by
  induction es generalizing acc with
  | nil => exact hacc
  | cons e t ih =>
    rw [List.foldl_cons]
    apply ih
    rw [objKeys_objSet]
    by_cases h : acc.any (fun p => p.1 == entryKey e)
    · rwa [if_pos h]
    · rw [if_neg h]
      rw [Bool.not_eq_true] at h
      rw [List.nodup_append]
      exact ⟨hacc, List.nodup_singleton _, by
        intro a ha hb
        rw [List.mem_singleton] at hb
        exact key_not_mem_of_not_any h (hb ▸ ha)⟩

theorem objKeys_fold_toFinset (es : List HarEntry) (acc : EndpointMap) :
    (objKeys (es.foldl (fun m e => objSet m (entryKey e) e) acc)).toFinset =
      (objKeys acc).toFinset ∪ (es.map entryKey).toFinset := by
  induction es generalizing acc with
  | nil => simp
  | cons e t ih =>
    rw [List.foldl_cons, ih, objKeys_objSet, List.map_cons, List.toFinset_cons]
    by_cases h : acc.any (fun p => p.1 == entryKey e)
    · rw [if_pos h, Finset.union_insert]
      have : entryKey e ∈ (objKeys acc).toFinset :=
        List.mem_toFinset.mpr (key_mem_of_any h)
      rw [Finset.insert_eq_self.mpr (Finset.mem_union_left _ this)]
    · rw [if_neg h, List.toFinset_append, Finset.union_insert]
      simp only [List.toFinset_cons, List.toFinset_nil, insert_emptyc_eq]
      rw [Finset.union_comm (objKeys acc).toFinset {entryKey e}, Finset.union_assoc]
      rfl

theorem getEndpointCount_eq_card_keys (es : List HarEntry) :
    getEndpointCount (buildEndpointMap es) = ((es.map entryKey).toFinset).card := by
  unfold getEndpointCount buildEndpointMap
  have hnd := objKeys_fold_nodup es [] (by simp [objKeys])
  rw [← List.toFinset_card_of_nodup hnd, objKeys_fold_toFinset]
  simp [objKeys]

theorem list_toFinset_map {α β : Type} [DecidableEq α] [DecidableEq β]
    (l : List α) (f : α → β) : (l.map f).toFinset = l.toFinset.image f := by
  apply Finset.ext
  intro b
  simp only [List.mem_toFinset, List.mem_map, Finset.mem_image]

/-- C7 (confirmed): the registry size equals the number of distinct
`(method, path)` pairs in the input, under the data-model invariant that
methods are HTTP tokens (no colon, so the composite key is injective on
pairs). -/
theorem C7_count_accuracy (entries : List HarEntry)
    (hm : ∀ e ∈ entries, ':' ∉ e.method.data) :
    getEndpointCount (buildEndpointMap entries) =
      ((entries.map (fun e => (e.method, e.path))).toFinset).card := by
  rw [getEndpointCount_eq_card_keys]
  have hcomp : entries.map entryKey =
      (entries.map (fun e => (e.method, e.path))).map
        (fun q => q.1 ++ ":" ++ getProxyPath q.2) := by
    rw [List.map_map]
    rfl
  rw [hcomp, list_toFinset_map]
  apply Finset.card_image_of_injOn
  intro q1 h1 q2 h2 heq
  rcases List.mem_map.mp (List.mem_toFinset.mp h1) with ⟨e1, he1, hq1⟩
  rcases List.mem_map.mp (List.mem_toFinset.mp h2) with ⟨e2, he2, hq2⟩
  have hm1 : ':' ∉ q1.1.data := by rw [← hq1]; exact hm e1 he1
  have hm2 : ':' ∉ q2.1.data := by rw [← hq2]; exact hm e2 he2
  have hsplit := key_parts_inj hm1 hm2 heq
  exact Prod.ext hsplit.1 (getProxyPath_inj hsplit.2)

/-- A third sample entry on a different path. -/
def entryC : HarEntry :=
  { method := "GET", url := "http://localhost/items", path := "/items"
    queryString := [], requestHeaders := [], status := 200
    responseHeaders := [], responseBody := "C"
    contentType := "application/json", timestamp := "t3" }

/-- C7 witness: three entries, two of which share `(GET, /users)`; the
registry reports 2 endpoints, the number of distinct pairs. -/
theorem C7_count_accuracy_witness :
    getEndpointCount (buildEndpointMap [entryA, entryB, entryC]) =
      (([entryA, entryB, entryC].map (fun e => (e.method, e.path))).toFinset).card ∧
    getEndpointCount (buildEndpointMap [entryA, entryB, entryC]) = 2 :=
  ⟨C7_count_accuracy [entryA, entryB, entryC] (by decide), by decide⟩

/-! ## The HTTP request handler (`createRequestHandler` in `src/server.ts`) -/

/-- `DEFAULT_CORS_HEADERS` from `src/server.ts`, in object-literal order. -/
def defaultCorsHeaders : JsObj String :=
  [("Access-Control-Allow-Origin", "*"),
   ("Access-Control-Allow-Methods", "GET, POST, PUT, DELETE, PATCH, OPTIONS"),
   ("Access-Control-Allow-Headers", "Content-Type, Authorization, X-Requested-With")]

/-- `applyCorsHeaders`: three assignments on the headers object. -/
def applyCorsHeaders (headers : JsObj String) : JsObj String :=
  objSet (objSet (objSet headers
    "Access-Control-Allow-Origin" "*")
    "Access-Control-Allow-Methods" "GET, POST, PUT, DELETE, PATCH, OPTIONS")
    "Access-Control-Allow-Headers" "Content-Type, Authorization, X-Requested-With"

/-- JS truthiness of `m[k]` for a string-valued object (`undefined` and the
empty string are falsy). -/
def objTruthy (m : JsObj String) (k : String) : Bool :=
  match objGet m k with
  | some v => v != ""
  | none => false

/-- The header filter of the hit branch: drop `content-encoding`,
`transfer-encoding` and `content-length` (case-insensitively). -/
def keepHeader (h : Header) : Bool :=
  (jsToLower h.name != "content-encoding") &&
  (jsToLower h.name != "transfer-encoding") &&
  (jsToLower h.name != "content-length")

/-- The headers object assembled by the hit branch of the request handler:
copy the non-excluded recorded headers, inject the derived content type when
neither `headers['Content-Type']` nor `headers['content-type']` is truthy,
then apply CORS headers if enabled. -/
def buildHitHeaders (e : HarEntry) (cors : Bool) : JsObj String :=
  let h0 := e.responseHeaders.foldl
    (fun m h => if keepHeader h then objSet m h.name h.value else m) []
  let h1 := if objTruthy h0 "Content-Type" = false ∧ objTruthy h0 "content-type" = false
    then objSet h0 "Content-Type" e.contentType else h0
  if cors then applyCorsHeaders h1 else h1

/-- Lower-case hex digit, for `JSON.stringify`'s control-character escapes. -/
def hexDigit (n : Nat) : Char := "0123456789abcdef".data.getD n '0'

/-- One character of `JSON.stringify` string escaping. -/
def jsonEscapeChar (c : Char) : List Char :=
  if c = '"' then ['\\', '"']
  else if c = '\\' then ['\\', '\\']
  else if c = '\x08' then ['\\', 'b']
  else if c = '\x0c' then ['\\', 'f']
  else if c = '\n' then ['\\', 'n']
  else if c = '\r' then ['\\', 'r']
  else if c = '\t' then ['\\', 't']
  else if c.toNat < 32 then
    ['\\', 'u', '0', '0', hexDigit (c.toNat / 16), hexDigit (c.toNat % 16)]
  else [c]

/-- `JSON.stringify` of a string, without the surrounding quotes. -/
def jsonEscape (s : String) : String := ⟨(s.data.map jsonEscapeChar).flatten⟩

/-- The 404 body for a path outside the `/proxy` namespace
(`JSON.stringify({ error: 'Not Found', message: ... })`). -/
def notFoundOutsideBody (path : String) : String :=
  "\x7b\"error\":\"Not Found\",\"message\":\"" ++
    jsonEscape ("Path " ++ path ++ " is not a proxy endpoint. HAR endpoints are available under "
      ++ proxyPrefixStr ++ "/*") ++ "\"\x7d"

/-- The 404 body for a registry miss. -/
def notFoundMissBody (method path : String) : String :=
  "\x7b\"error\":\"Not Found\",\"message\":\"" ++
    jsonEscape ("No matching entry for " ++ method ++ " " ++ path) ++ "\"\x7d"

/-- A completed HTTP response: `writeHead(status, headers)` + `end(body)`. -/
structure HttpResponse where
  status : Nat
  headers : JsObj String
  body : String
deriving DecidableEq, Repr

/-- The observable outcome of one request.  The dashboard branch delegates
to an external renderer and is opaque here. -/
inductive Outcome where
  | dashboard
  | preflight (resp : HttpResponse)
  | notFoundOutside (resp : HttpResponse)
  | notFoundMiss (resp : HttpResponse)
  | hit (resp : HttpResponse)
deriving DecidableEq, Repr

/-- `req.method?.toUpperCase() || 'GET'` (the falsy fallback fires on the
empty string). -/
def effectiveMethod (m : String) : String :=
  if jsToUpper m = "" then "GET" else jsToUpper m

/-- `req.url || '/'`. -/
def effectiveUrl (u : String) : String := if u = "" then "/" else u

/-- The branch structure of the request handler, after the handler has
normalised the method and stripped the query string from the URL. -/
def handlePath (endpointMap : EndpointMap) (M path : String) (cors : Bool) : Outcome :=
  if path = "/" ∧ M = "GET" then
    Outcome.dashboard
  else if M = "OPTIONS" ∧ cors = true ∧ jsStartsWith path proxyPrefixStr = true then
    Outcome.preflight ⟨204, applyCorsHeaders [], ""⟩
  else if jsStartsWith path proxyPrefixStr = false then
    Outcome.notFoundOutside ⟨404,
      (if cors then applyCorsHeaders [("Content-Type", "application/json")]
       else [("Content-Type", "application/json")]),
      notFoundOutsideBody path⟩
  else
    match findMatchingEntry M path endpointMap with
    | none =>
      Outcome.notFoundMiss ⟨404,
        (if cors then applyCorsHeaders [("Content-Type", "application/json")]
         else [("Content-Type", "application/json")]),
        notFoundMissBody M path⟩
    | some e => Outcome.hit ⟨e.status, buildHitHeaders e cors, e.responseBody⟩

/-- The request handler returned by `createRequestHandler`:
`const method = req.method?.toUpperCase() || 'GET'`,
`const path = stripQueryParams(req.url || '/')`, then the branch chain. -/
def handleRequest (endpointMap : EndpointMap) (method rawUrl : String)
    (cors : Bool) : Outcome :=
  handlePath endpointMap (effectiveMethod method)
    (stripQueryParams (effectiveUrl rawUrl)) cors

/-! ## C10: shape of the 404 responses -/

/-- C10 (confirmed): every 404 the handler produces — outside the `/proxy`
namespace or on a registry miss — has status 404 and carries exactly a
`Content-Type: application/json` header plus, when CORS is enabled, the
three CORS headers (and nothing else when CORS is disabled). -/
theorem C10_notfound_shape (endpointMap : EndpointMap) (method rawUrl : String)
    (cors : Bool) (r : HttpResponse)
    (h : handleRequest endpointMap method rawUrl cors = Outcome.notFoundOutside r ∨
         handleRequest endpointMap method rawUrl cors = Outcome.notFoundMiss r) :
    r.status = 404 ∧
    r.headers = [("Content-Type", "application/json")] ++
      (if cors then defaultCorsHeaders else []) := by
  have hshape : ∀ (b : Bool),
      (if b then applyCorsHeaders [("Content-Type", "application/json")]
       else [("Content-Type", "application/json")]) =
      [("Content-Type", "application/json")] ++ (if b then defaultCorsHeaders else []) := by
    intro b
    cases b <;> rfl
  unfold handleRequest handlePath at h
  rcases h with h | h
  · split at h
    · exact Outcome.noConfusion h
    · split at h
      · exact Outcome.noConfusion h
      · split at h
        · injection h with h'
          refine ⟨?_, ?_⟩
          · rw [← h']
          · rw [← h']
            exact hshape cors
        · split at h
          · exact Outcome.noConfusion h
          · exact Outcome.noConfusion h
  · split at h
    · exact Outcome.noConfusion h
    · split at h
      · exact Outcome.noConfusion h
      · split at h
        · exact Outcome.noConfusion h
        · split at h
          · injection h with h'
            refine ⟨?_, ?_⟩
            · rw [← h']
            · rw [← h']
              exact hshape cors
          · exact Outcome.noConfusion h

/-- C10 witness: `GET /nope` against an empty registry with CORS enabled:
a 404 with the JSON content type and the three CORS headers. -/
theorem C10_notfound_shape_witness :
    HttpResponse.status ⟨404,
        [("Content-Type", "application/json")] ++ defaultCorsHeaders,
        notFoundOutsideBody "/nope"⟩ = 404 ∧
    HttpResponse.headers ⟨404,
        [("Content-Type", "application/json")] ++ defaultCorsHeaders,
        notFoundOutsideBody "/nope"⟩ =
      [("Content-Type", "application/json")] ++
        (if (true : Bool) then defaultCorsHeaders else []) :=
  C10_notfound_shape [] "GET" "/nope" true
    ⟨404, [("Content-Type", "application/json")] ++ defaultCorsHeaders,
     notFoundOutsideBody "/nope"⟩
    (Or.inl (by decide))

/-! ## C4: replay header policy on a hit -/

theorem any_eq_false_of_key_not_mem {α : Type} {m : JsObj α} {k : String}
    (h : k ∉ objKeys m) : m.any (fun p => p.1 == k) = false := by
  by_cases ha : m.any (fun p => p.1 == k)
  · exact absurd (key_mem_of_any ha) h
  · rwa [Bool.not_eq_true] at ha

theorem objSet_append_of_key_not_mem {α : Type} {m : JsObj α} {k : String} (v : α)
    (h : k ∉ objKeys m) : objSet m k v = m ++ [(k, v)] := by
  unfold objSet
  rw [any_eq_false_of_key_not_mem h]
  rfl

/-- With pairwise-distinct header names, the hit branch's copy loop produces
exactly the non-excluded recorded headers, in order. -/
theorem hdrFold_eq (hdrs : List Header) (acc : JsObj String)
    (hdisj : ∀ h ∈ hdrs, h.name ∉ objKeys acc)
    (hnd : (hdrs.map Header.name).Nodup) :
    hdrs.foldl (fun m h => if keepHeader h then objSet m h.name h.value else m) acc
      = acc ++ (hdrs.filter keepHeader).map (fun h => (h.name, h.value)) := by
  induction hdrs generalizing acc with
  | nil => simp
  | cons g t ih =>
    rw [List.map_cons, List.nodup_cons] at hnd
    rw [List.foldl_cons, List.filter_cons]
    by_cases hk : keepHeader g
    · rw [if_pos hk, if_pos hk]
      rw [objSet_append_of_key_not_mem g.value (hdisj g (List.mem_cons_self g t))]
      rw [ih (acc ++ [(g.name, g.value)]) ?_ hnd.2]
      · simp [List.append_assoc]
      · intro h hh
        rw [objKeys, List.map_append, List.mem_append]
        rintro (hmem | hmem)
        · exact hdisj h (List.mem_cons_of_mem g hh) hmem
        · simp only [List.map_cons, List.map_nil, List.mem_singleton] at hmem
          exact hnd.1 (hmem ▸ List.mem_map.mpr ⟨h, hh, rfl⟩)
    · rw [Bool.not_eq_true] at hk
      rw [hk, if_neg (by simp), if_neg (by simp)]
      exact ih acc (fun h hh => hdisj h (List.mem_cons_of_mem g hh)) hnd.2

/-- Reading back a header by name from the copied pair list. -/
theorem objGet_pairsOf {hdrs : List Header} (hnd : (hdrs.map Header.name).Nodup)
    {h : Header} (hmem : h ∈ hdrs) :
    objGet (hdrs.map fun x => (x.name, x.value)) h.name = some h.value := by
  induction hdrs with
  | nil => cases hmem
  | cons g t ih =>
    rw [List.map_cons, List.nodup_cons] at hnd
    rcases List.mem_cons.mp hmem with rfl | hmem'
    · unfold objGet
      simp [List.find?_cons]
    · have hne : (g.name == h.name) = false := by
        rw [beq_eq_false_iff_ne]
        intro hgh
        exact hnd.1 (hgh ▸ List.mem_map.mpr ⟨h, hmem', rfl⟩)
      unfold objGet at *
      rw [List.map_cons, List.find?_cons]
      simp only [hne, cond_false]
      exact ih hnd.2 hmem'

theorem objGet_some_mem {α : Type} {m : JsObj α} {k : String} {v : α}
    (h : objGet m k = some v) : (k, v) ∈ m := by
  unfold objGet at h
  rcases Option.map_eq_some'.mp h with ⟨p, hp, hpv⟩
  have hk := List.find?_some hp
  have hmem := List.mem_of_find?_eq_some hp
  have : p = (k, v) := by
    cases p
    simp only [beq_iff_eq] at hk
    simp_all
  exact this ▸ hmem

/-- A recorded content-type header (any capitalisation) survives the
exclusion filter. -/
theorem keepHeader_of_ct {h : Header} (hct : jsToLower h.name = "content-type") :
    keepHeader h = true := by
  unfold keepHeader
  rw [hct]
  rfl

/-- C4 (corrected): if CORS is disabled, recorded response-header names are
pairwise distinct, and any recorded content-type header is spelled
`Content-Type` or `content-type` with a non-empty value (the injection check
of the code tests only those two spellings for truthiness), then a hit
serves exactly the recorded headers minus the three excluded ones, with the
derived content type injected exactly when no content-type header survived,
and the recorded status and body verbatim.  (With CORS enabled — the
default — the handler additionally sets the three CORS headers, which the
claim's "exactly" excludes; see the counterexample.) -/
theorem C4_replay_headers_amended (endpointMap : EndpointMap)
    (method rawUrl : String) (e : HarEntry)
    (hnodup : (e.responseHeaders.map Header.name).Nodup)
    (hct : ∀ h ∈ e.responseHeaders, jsToLower h.name = "content-type" →
      (h.name = "Content-Type" ∨ h.name = "content-type") ∧ h.value ≠ "")
    (hpath : jsStartsWith (stripQueryParams (effectiveUrl rawUrl)) proxyPrefixStr = true)
    (hlookup : findMatchingEntry (effectiveMethod method)
      (stripQueryParams (effectiveUrl rawUrl)) endpointMap = some e) :
    handleRequest endpointMap method rawUrl false = Outcome.hit
      ⟨e.status,
       (e.responseHeaders.filter keepHeader).map (fun h => (h.name, h.value)) ++
         (if e.responseHeaders.any (fun h => jsToLower h.name == "content-type")
          then [] else [("Content-Type", e.contentType)]),
       e.responseBody⟩ := by
  have hroot : stripQueryParams (effectiveUrl rawUrl) ≠ "/" := by
    intro hr
    rw [hr] at hpath
    exact Bool.noConfusion ((by decide : jsStartsWith "/" proxyPrefixStr = false) ▸ hpath)
  have hfold : e.responseHeaders.foldl
      (fun m h => if keepHeader h then objSet m h.name h.value else m) []
      = (e.responseHeaders.filter keepHeader).map (fun h => (h.name, h.value)) := by
    rw [hdrFold_eq e.responseHeaders [] (by intro h _; simp [objKeys]) hnodup]
    rfl
  have hsurv : ∀ h ∈ e.responseHeaders, jsToLower h.name = "content-type" →
      h ∈ e.responseHeaders.filter keepHeader := by
    intro h hh hlow
    exact List.mem_filter.mpr ⟨hh, keepHeader_of_ct hlow⟩
  have hndf : ((e.responseHeaders.filter keepHeader).map Header.name).Nodup :=
    List.Nodup.sublist (List.Sublist.map Header.name (List.filter_sublist _)) hnodup
  have hcond : (objTruthy ((e.responseHeaders.filter keepHeader).map
        (fun h => (h.name, h.value))) "Content-Type" = false ∧
      objTruthy ((e.responseHeaders.filter keepHeader).map
        (fun h => (h.name, h.value))) "content-type" = false) ↔
      e.responseHeaders.any (fun h => jsToLower h.name == "content-type") = false := by
    constructor
    · intro htr
      by_cases hany : e.responseHeaders.any (fun h => jsToLower h.name == "content-type")
      · exfalso
        rcases List.any_eq_true.mp hany with ⟨h, hh, hlow⟩
        have hlow' := beq_iff_eq.mp hlow
        have hmemf := hsurv h hh hlow'
        have hget := objGet_pairsOf hndf hmemf
        have hv := (hct h hh hlow').2
        rcases (hct h hh hlow').1 with hn | hn
        · have := htr.1
          unfold objTruthy at this
          rw [hn] at hget
          rw [hget] at this
          simp only [bne_eq_false_iff_eq] at this
          exact hv this
        · have := htr.2
          unfold objTruthy at this
          rw [hn] at hget
          rw [hget] at this
          simp only [bne_eq_false_iff_eq] at this
          exact hv this
      · rwa [Bool.not_eq_true] at hany
    · intro hany
      constructor
      · unfold objTruthy
        cases hget : objGet ((e.responseHeaders.filter keepHeader).map
            (fun h => (h.name, h.value))) "Content-Type" with
        | none => rfl
        | some v =>
          exfalso
          have hmem := objGet_some_mem hget
          rcases List.mem_map.mp hmem with ⟨h, hhf, hpair⟩
          have hname : h.name = "Content-Type" := congrArg Prod.fst hpair
          have hlow : jsToLower h.name = "content-type" := by rw [hname]; rfl
          have : e.responseHeaders.any (fun h => jsToLower h.name == "content-type") = true :=
            List.any_eq_true.mpr ⟨h, (List.mem_filter.mp hhf).1, beq_iff_eq.mpr hlow⟩
          rw [hany] at this
          exact Bool.noConfusion this
      · unfold objTruthy
        cases hget : objGet ((e.responseHeaders.filter keepHeader).map
            (fun h => (h.name, h.value))) "content-type" with
        | none => rfl
        | some v =>
          exfalso
          have hmem := objGet_some_mem hget
          rcases List.mem_map.mp hmem with ⟨h, hhf, hpair⟩
          have hname : h.name = "content-type" := congrArg Prod.fst hpair
          have hlow : jsToLower h.name = "content-type" := by rw [hname]; rfl
          have : e.responseHeaders.any (fun h => jsToLower h.name == "content-type") = true :=
            List.any_eq_true.mpr ⟨h, (List.mem_filter.mp hhf).1, beq_iff_eq.mpr hlow⟩
          rw [hany] at this
          exact Bool.noConfusion this
  have hheaders : buildHitHeaders e false =
      (e.responseHeaders.filter keepHeader).map (fun h => (h.name, h.value)) ++
        (if e.responseHeaders.any (fun h => jsToLower h.name == "content-type")
         then [] else [("Content-Type", e.contentType)]) := by
    unfold buildHitHeaders
    simp only [Bool.false_eq_true, if_false]
    rw [hfold]
    by_cases hany : e.responseHeaders.any (fun h => jsToLower h.name == "content-type")
    · have hc : ¬ (objTruthy ((e.responseHeaders.filter keepHeader).map
          (fun h => (h.name, h.value))) "Content-Type" = false ∧
        objTruthy ((e.responseHeaders.filter keepHeader).map
          (fun h => (h.name, h.value))) "content-type" = false) := by
        intro hcontra
        rw [hcond.mp hcontra] at hany
        exact Bool.noConfusion hany
      rw [if_neg hc, if_pos hany]
      simp
    · rw [Bool.not_eq_true] at hany
      rw [if_pos (hcond.mpr hany)]
      rw [if_neg (fun hcon => Bool.noConfusion (hany ▸ hcon))]
      rw [objSet_append_of_key_not_mem e.contentType ?_]
      intro hmemk
      rcases List.mem_map.mp hmemk with ⟨p, hp, hfst⟩
      rcases List.mem_map.mp hp with ⟨h, hhf, hpair⟩
      have hname : h.name = "Content-Type" := by
        rw [← hfst, ← hpair]
      have : e.responseHeaders.any (fun h => jsToLower h.name == "content-type") = true :=
        List.any_eq_true.mpr ⟨h, (List.mem_filter.mp hhf).1,
          beq_iff_eq.mpr (by rw [hname]; rfl)⟩
      rw [hany] at this
      exact Bool.noConfusion this
  unfold handleRequest handlePath
  rw [if_neg (by intro hc; exact hroot hc.1)]
  rw [if_neg (by intro hc; exact Bool.noConfusion hc.2.1)]
  rw [if_neg (by rw [hpath]; intro hc; exact Bool.noConfusion hc)]
  rw [hlookup]
  show Outcome.hit ⟨e.status, buildHitHeaders e false, e.responseBody⟩ = _
  rw [hheaders]

/-- An entry with no recorded response headers, served with CORS enabled
(the handler's default configuration). -/
def entryHit : HarEntry :=
  { method := "GET", url := "http://localhost/c4", path := "/c4"
    queryString := [], requestHeaders := [], status := 200
    responseHeaders := [], responseBody := "hi"
    contentType := "text/plain", timestamp := "t" }

/-- C4 counterexample: with CORS enabled (the default), the served response
carries the three `Access-Control-*` headers although the recorded entry has
no response headers at all — so the response does not consist exactly of the
recorded headers minus the excluded three plus at most an injected
content type. -/
theorem C4_replay_headers_counterexample :
    entryHit.responseHeaders = [] ∧
    handleRequest (buildEndpointMap [entryHit]) "GET" "/proxy/c4" true =
      Outcome.hit ⟨200,
        [("Content-Type", "text/plain"),
         ("Access-Control-Allow-Origin", "*"),
         ("Access-Control-Allow-Methods", "GET, POST, PUT, DELETE, PATCH, OPTIONS"),
         ("Access-Control-Allow-Headers", "Content-Type, Authorization, X-Requested-With")],
        "hi"⟩ := by
  constructor
  · rfl
  · decide

/-- An entry exercising the exclusion filter, the surviving content type and
query stripping. -/
def entryHdrs : HarEntry :=
  { method := "GET", url := "http://localhost/w4", path := "/w4"
    queryString := [], requestHeaders := [], status := 201
    responseHeaders :=
      [⟨"X-Request-Id", "7"⟩, ⟨"Content-Encoding", "gzip"⟩,
       ⟨"Content-Length", "42"⟩, ⟨"Content-Type", "application/json"⟩]
    responseBody := "ok", contentType := "application/json", timestamp := "t" }

/-- C4 witness: with CORS disabled, a hit on `/proxy/w4?x=1` (query
stripped) serves status 201, body `"ok"`, and exactly the recorded headers
minus `Content-Encoding`/`Content-Length`, with no injected content type
since one survived. -/
theorem C4_replay_headers_amended_witness :
    handleRequest (buildEndpointMap [entryHdrs]) "GET" "/proxy/w4?x=1" false =
      Outcome.hit ⟨201,
        [("X-Request-Id", "7"), ("Content-Type", "application/json")],
        "ok"⟩ :=
  Eq.trans
    (C4_replay_headers_amended (buildEndpointMap [entryHdrs]) "GET" "/proxy/w4?x=1"
      entryHdrs (by decide) (by decide) (by decide) (by decide))
    (by decide)

/-! ## Base64 and UTF-8: the `Buffer` codecs used by the parser module

`encodeBase64`/`decodeBase64` are `Buffer.from(..., 'utf-8'/'base64')`
round trips.  UTF-8 is embedded exactly; the decoder is total in the Node
style (invalid sequences produce U+FFFD), and its error paths are never
exercised by the theorems. -/

/-- U+FFFD, the replacement character of Node's UTF-8 decoder. -/
def replChar : Char := '�'

/-- UTF-8 encoding of one Unicode scalar value. -/
def utf8EncodeChar (c : Char) : List Nat :=
  if c.toNat < 128 then [c.toNat]
  else if c.toNat < 2048 then [192 + c.toNat / 64, 128 + c.toNat % 64]
  else if c.toNat < 65536 then
    [224 + c.toNat / 4096, 128 + c.toNat / 64 % 64, 128 + c.toNat % 64]
  else
    [240 + c.toNat / 262144, 128 + c.toNat / 4096 % 64,
     128 + c.toNat / 64 % 64, 128 + c.toNat % 64]

/-- `Buffer.from(s, 'utf-8')`: the UTF-8 bytes of a string. -/
def utf8Encode (s : String) : List Nat := (s.data.map utf8EncodeChar).flatten

/-- `buffer.toString('utf-8')`: a total UTF-8 decoder.  Valid sequences
decode exactly; malformed input (surrogates, overlong forms, stray or
missing continuation bytes) yields U+FFFD and restarts at the offending
byte.  No theorem depends on malformed input. -/
def utf8Decode : List Nat → List Char
  | [] => []
  | b :: rest =>
    if b < 128 then Char.ofNat b :: utf8Decode rest
    else if 192 ≤ b ∧ b < 224 then
      match rest with
      | [] => [replChar]
      | b2 :: r2 =>
        if 128 ≤ b2 ∧ b2 < 192 then
          (if 128 ≤ (b - 192) * 64 + (b2 - 128)
           then Char.ofNat ((b - 192) * 64 + (b2 - 128)) else replChar) :: utf8Decode r2
        else replChar :: utf8Decode (b2 :: r2)
    else if 224 ≤ b ∧ b < 240 then
      match rest with
      | [] => [replChar]
      | b2 :: r2 =>
        if 128 ≤ b2 ∧ b2 < 192 then
          match r2 with
          | [] => [replChar]
          | b3 :: r3 =>
            if 128 ≤ b3 ∧ b3 < 192 then
              (if 2048 ≤ (b - 224) * 4096 + (b2 - 128) * 64 + (b3 - 128) ∧
                  ¬ (55296 ≤ (b - 224) * 4096 + (b2 - 128) * 64 + (b3 - 128) ∧
                     (b - 224) * 4096 + (b2 - 128) * 64 + (b3 - 128) < 57344)
               then Char.ofNat ((b - 224) * 4096 + (b2 - 128) * 64 + (b3 - 128))
               else replChar) :: utf8Decode r3
            else replChar :: utf8Decode (b3 :: r3)
        else replChar :: utf8Decode (b2 :: r2)
    else if 240 ≤ b ∧ b < 248 then
      match rest with
      | [] => [replChar]
      | b2 :: r2 =>
        if 128 ≤ b2 ∧ b2 < 192 then
          match r2 with
          | [] => [replChar]
          | b3 :: r3 =>
            if 128 ≤ b3 ∧ b3 < 192 then
              match r3 with
              | [] => [replChar]
              | b4 :: r4 =>
                if 128 ≤ b4 ∧ b4 < 192 then
                  (if 65536 ≤ (b - 240) * 262144 + (b2 - 128) * 4096 +
                        (b3 - 128) * 64 + (b4 - 128) ∧
                      (b - 240) * 262144 + (b2 - 128) * 4096 +
                        (b3 - 128) * 64 + (b4 - 128) < 1114112
                   then Char.ofNat ((b - 240) * 262144 + (b2 - 128) * 4096 +
                        (b3 - 128) * 64 + (b4 - 128))
                   else replChar) :: utf8Decode r4
                else replChar :: utf8Decode (b4 :: r4)
            else replChar :: utf8Decode (b3 :: r3)
        else replChar :: utf8Decode (b2 :: r2)
    else replChar :: utf8Decode rest
termination_by structural l => l

/-- The base64 alphabet. -/
def b64Chars : List Char :=
  "ABCDEFGHIJKLMNOPQRSTUVWXYZabcdefghijklmnopqrstuvwxyz0123456789+/".data

/-- The base64 digit for a 6-bit value. -/
def b64Char (k : Nat) : Char := b64Chars.getD k 'A'

/-- The 6-bit value of a base64 digit (64 on non-members; unused on
well-formed input). -/
def b64Val (c : Char) : Nat := b64Chars.indexOf c

/-- `buffer.toString('base64')`: encode bytes in 3-byte groups, padding the
final group with `=`. -/
def b64EncodeBytes : List Nat → List Char
  | [] => []
  | [b1] => [b64Char (b1 / 4), b64Char (b1 % 4 * 16), '=', '=']
  | [b1, b2] => [b64Char (b1 / 4), b64Char (b1 % 4 * 16 + b2 / 16), b64Char (b2 % 16 * 4), '=']
  | b1 :: b2 :: b3 :: rest =>
      b64Char (b1 / 4) :: b64Char (b1 % 4 * 16 + b2 / 16) ::
      b64Char (b2 % 16 * 4 + b3 / 64) :: b64Char (b3 % 64) :: b64EncodeBytes rest

/-- `Buffer.from(t, 'base64')` restricted to well-formed base64: decode
4-character groups, honouring `=` padding in the final group. -/
def b64DecodeChars : List Char → List Nat
  | c1 :: c2 :: c3 :: c4 :: rest =>
    if c3 = '=' then [b64Val c1 * 4 + b64Val c2 / 16]
    else if c4 = '=' then
      [b64Val c1 * 4 + b64Val c2 / 16, b64Val c2 % 16 * 16 + b64Val c3 / 4]
    else
      (b64Val c1 * 4 + b64Val c2 / 16) :: (b64Val c2 % 16 * 16 + b64Val c3 / 4) ::
      (b64Val c3 % 4 * 64 + b64Val c4) :: b64DecodeChars rest
  | _ => []

/-- `encodeBase64` from the parser module. -/
def encodeBase64 (content : String) : String := ⟨b64EncodeBytes (utf8Encode content)⟩

/-- `decodeBase64` from the parser module. -/
def decodeBase64 (encoded : String) : String := ⟨utf8Decode (b64DecodeChars encoded.data)⟩

theorem b64Val_b64Char : ∀ k < 64, b64Val (b64Char k) = k := by decide

theorem b64Char_ne_eq : ∀ k < 64, b64Char k ≠ '=' := by decide

theorem b64_roundtrip : ∀ (l : List Nat), (∀ b ∈ l, b < 256) →
    b64DecodeChars (b64EncodeBytes l) = l
  | [], _ => rfl
  | [b1], h => by
    have hb1 : b1 < 256 := h b1 (by simp)
    show b64DecodeChars [b64Char (b1 / 4), b64Char (b1 % 4 * 16), '=', '='] = [b1]
    simp only [b64DecodeChars]
    rw [if_pos trivial]
    rw [b64Val_b64Char _ (by omega), b64Val_b64Char _ (by omega)]
    simp only [List.cons.injEq, and_true]
    omega
  | [b1, b2], h => by
    have hb1 : b1 < 256 := h b1 (by simp)
    have hb2 : b2 < 256 := h b2 (by simp)
    show b64DecodeChars [b64Char (b1 / 4), b64Char (b1 % 4 * 16 + b2 / 16),
        b64Char (b2 % 16 * 4), '='] = [b1, b2]
    simp only [b64DecodeChars]
    rw [if_neg (b64Char_ne_eq _ (by omega)), if_pos trivial]
    rw [b64Val_b64Char _ (by omega), b64Val_b64Char _ (by omega),
        b64Val_b64Char _ (by omega)]
    simp only [List.cons.injEq, and_true]
    exact ⟨by omega, by omega⟩
  | b1 :: b2 :: b3 :: rest, h => by
    have hb1 : b1 < 256 := h b1 (by simp)
    have hb2 : b2 < 256 := h b2 (by simp)
    have hb3 : b3 < 256 := h b3 (by simp)
    have hrec := b64_roundtrip rest (fun b hb => h b (by simp [hb]))
    show b64DecodeChars (b64Char (b1 / 4) :: b64Char (b1 % 4 * 16 + b2 / 16) ::
        b64Char (b2 % 16 * 4 + b3 / 64) :: b64Char (b3 % 64) :: b64EncodeBytes rest)
      = b1 :: b2 :: b3 :: rest
    simp only [b64DecodeChars]
    rw [if_neg (b64Char_ne_eq _ (by omega)), if_neg (b64Char_ne_eq _ (by omega))]
    rw [b64Val_b64Char _ (by omega), b64Val_b64Char _ (by omega),
        b64Val_b64Char _ (by omega), b64Val_b64Char _ (by omega)]
    rw [hrec]
    simp only [List.cons.injEq]
    exact ⟨by omega, by omega, by omega, trivial⟩

theorem char_valid_nat (c : Char) :
    c.toNat < 55296 ∨ (57343 < c.toNat ∧ c.toNat < 1114112) := c.valid

theorem utf8EncodeChar_lt_256 (c : Char) : ∀ b ∈ utf8EncodeChar c, b < 256 := by
  intro b hbc
  have hv := char_valid_nat c
  unfold utf8EncodeChar at hbc
  split_ifs at hbc with h1 h2 h3 <;>
    simp only [List.mem_cons, List.mem_singleton, List.not_mem_nil, or_false] at hbc <;>
    omega

theorem utf8EncodeChar_ne_nil (c : Char) : utf8EncodeChar c ≠ [] := by
  unfold utf8EncodeChar
  split_ifs <;> simp

/-- Decoding picks up exactly the bytes of one encoded scalar value. -/
theorem utf8Decode_encodeChar (c : Char) (rest : List Nat) :
    utf8Decode (utf8EncodeChar c ++ rest) = c :: utf8Decode rest := by
  have hv := char_valid_nat c
  unfold utf8EncodeChar
  by_cases h1 : c.toNat < 128
  · rw [if_pos h1]
    simp only [List.singleton_append]
    rw [utf8Decode.eq_def]
    change (if c.toNat < 128 then _ else _) = _
    rw [if_pos h1, Char.ofNat_toNat]
  · rw [if_neg h1]
    by_cases h2 : c.toNat < 2048
    · rw [if_pos h2]
      simp only [List.cons_append, List.nil_append]
      rw [utf8Decode.eq_def]
      change (if 192 + c.toNat / 64 < 128 then _ else _) = _
      rw [if_neg (by omega)]
      change (if 192 ≤ 192 + c.toNat / 64 ∧ 192 + c.toNat / 64 < 224 then _ else _) = _
      rw [if_pos (by omega)]
      change (if 128 ≤ 128 + c.toNat % 64 ∧ 128 + c.toNat % 64 < 192 then _ else _) = _
      rw [if_pos (by omega)]
      rw [if_pos (by omega)]
      have hcp : (192 + c.toNat / 64 - 192) * 64 + (128 + c.toNat % 64 - 128) = c.toNat := by
        omega
      rw [hcp, Char.ofNat_toNat]
    · rw [if_neg h2]
      by_cases h3 : c.toNat < 65536
      · rw [if_pos h3]
        simp only [List.cons_append, List.nil_append]
        rw [utf8Decode.eq_def]
        change (if 224 + c.toNat / 4096 < 128 then _ else _) = _
        rw [if_neg (by omega)]
        change (if 192 ≤ 224 + c.toNat / 4096 ∧ 224 + c.toNat / 4096 < 224 then _ else _) = _
        rw [if_neg (by omega)]
        change (if 224 ≤ 224 + c.toNat / 4096 ∧ 224 + c.toNat / 4096 < 240 then _ else _) = _
        rw [if_pos (by omega)]
        change (if 128 ≤ 128 + c.toNat / 64 % 64 ∧ 128 + c.toNat / 64 % 64 < 192
            then _ else _) = _
        rw [if_pos (by omega)]
        change (if 128 ≤ 128 + c.toNat % 64 ∧ 128 + c.toNat % 64 < 192 then _ else _) = _
        rw [if_pos (by omega)]
        rw [if_pos (by omega)]
        have hcp : (224 + c.toNat / 4096 - 224) * 4096 +
            (128 + c.toNat / 64 % 64 - 128) * 64 + (128 + c.toNat % 64 - 128) = c.toNat := by
          omega
        rw [hcp, Char.ofNat_toNat]
      · rw [if_neg h3]
        simp only [List.cons_append, List.nil_append]
        rw [utf8Decode.eq_def]
        change (if 240 + c.toNat / 262144 < 128 then _ else _) = _
        rw [if_neg (by omega)]
        change (if 192 ≤ 240 + c.toNat / 262144 ∧ 240 + c.toNat / 262144 < 224
            then _ else _) = _
        rw [if_neg (by omega)]
        change (if 224 ≤ 240 + c.toNat / 262144 ∧ 240 + c.toNat / 262144 < 240
            then _ else _) = _
        rw [if_neg (by omega)]
        change (if 240 ≤ 240 + c.toNat / 262144 ∧ 240 + c.toNat / 262144 < 248
            then _ else _) = _
        rw [if_pos (by omega)]
        change (if 128 ≤ 128 + c.toNat / 4096 % 64 ∧ 128 + c.toNat / 4096 % 64 < 192
            then _ else _) = _
        rw [if_pos (by omega)]
        change (if 128 ≤ 128 + c.toNat / 64 % 64 ∧ 128 + c.toNat / 64 % 64 < 192
            then _ else _) = _
        rw [if_pos (by omega)]
        change (if 128 ≤ 128 + c.toNat % 64 ∧ 128 + c.toNat % 64 < 192 then _ else _) = _
        rw [if_pos (by omega)]
        rw [if_pos (by omega)]
        have hcp : (240 + c.toNat / 262144 - 240) * 262144 +
            (128 + c.toNat / 4096 % 64 - 128) * 4096 +
            (128 + c.toNat / 64 % 64 - 128) * 64 + (128 + c.toNat % 64 - 128) = c.toNat := by
          omega
        rw [hcp, Char.ofNat_toNat]

theorem utf8Decode_encode_data : ∀ (l : List Char),
    utf8Decode ((l.map utf8EncodeChar).flatten) = l
  | [] => rfl
  | c :: t => by
    simp only [List.map_cons, List.flatten_cons]
    rw [utf8Decode_encodeChar c, utf8Decode_encode_data t]

theorem utf8Encode_lt_256 (s : String) : ∀ b ∈ utf8Encode s, b < 256 := by
  intro b hb
  unfold utf8Encode at hb
  rcases List.mem_flatten.mp hb with ⟨chunk, hc, hbc⟩
  rcases List.mem_map.mp hc with ⟨c, _, hck⟩
  exact utf8EncodeChar_lt_256 c b (hck ▸ hbc)

theorem b64EncodeBytes_eq_nil {l : List Nat} (h : b64EncodeBytes l = []) : l = [] := by
  cases l with
  | nil => rfl
  | cons b1 t =>
    cases t with
    | nil => simp [b64EncodeBytes] at h
    | cons b2 t2 =>
      cases t2 with
      | nil => simp [b64EncodeBytes] at h
      | cons b3 r => simp [b64EncodeBytes] at h

theorem encodeBase64_eq_empty {s : String} (h : encodeBase64 s = "") : s = "" := by
  unfold encodeBase64 at h
  have hdata : b64EncodeBytes (utf8Encode s) = [] := congrArg String.data h
  have hbytes := b64EncodeBytes_eq_nil hdata
  unfold utf8Encode at hbytes
  apply string_ext
  cases hs : s.data with
  | nil => rfl
  | cons c t =>
    exfalso
    rw [hs] at hbytes
    simp only [List.map_cons, List.flatten_cons, List.append_eq_nil] at hbytes
    exact utf8EncodeChar_ne_nil c hbytes.1

/-! ## Typed HAR input model and `transformEntry` -/

/-- `response.content` of a HAR 1.2 log entry (`text`/`encoding` optional). -/
structure HarContent where
  size : Nat
  mimeType : String
  text : Option String
  encoding : Option String
deriving DecidableEq, Repr

/-- `request` of a HAR log entry. -/
structure HarRequest where
  method : String
  url : String
  headers : List Header
  queryString : List Header
deriving DecidableEq, Repr

/-- `response` of a HAR log entry. -/
structure HarResponse where
  status : Nat
  headers : List Header
  content : HarContent
deriving DecidableEq, Repr

/-- A well-formed HAR log entry (`HarLogEntry` in `src/types/index.ts`). -/
structure HarLogEntry where
  startedDateTime : String
  request : HarRequest
  response : HarResponse
deriving DecidableEq, Repr

/-- `extractPath`: the URL's path component.  Modelled for ordinary
`http(s)://host/path[?query][#fragment]` URLs as everything from the first
slash after the authority up to `?` or `#` (WHATWG pathname without
dot-segment or percent normalisation), with the source's regex fallback
yielding `/` when nothing matches.  No claim depends on this value. -/
def extractPath (url : String) : String :=
  let rest :=
    if jsStartsWith url "http://" then some (url.data.drop 7)
    else if jsStartsWith url "https://" then some (url.data.drop 8)
    else none
  match rest with
  | none => "/"
  | some r =>
    match r.dropWhile (fun c => c != '/') with
    | [] => "/"
    | p => ⟨p.takeWhile (fun c => !(c == '?' || c == '#'))⟩

/-- `findContentType`: first response header named `content-type`
(case-insensitively); its value if truthy, else `application/octet-stream`. -/
def findContentType (headers : List Header) : String :=
  match headers.find? (fun h => jsToLower h.name == "content-type") with
  | some h => if h.value ≠ "" then h.value else "application/octet-stream"
  | none => "application/octet-stream"

/-- `transformEntry`: convert one HAR log entry to the internal model.
`if (response.content.text)` is JS truthiness — absent or empty text gives
an empty body; the body is base64-decoded exactly when
`encoding === 'base64'`. -/
def transformEntry (logEntry : HarLogEntry) : HarEntry :=
  let responseBody :=
    match logEntry.response.content.text with
    | none => ""
    | some t =>
      if t ≠ "" then
        (if logEntry.response.content.encoding = some "base64" then decodeBase64 t else t)
      else ""
  let responseHeaders := logEntry.response.headers.map (fun h => (⟨h.name, h.value⟩ : Header))
  { method := jsToUpper logEntry.request.method
    url := logEntry.request.url
    path := extractPath logEntry.request.url
    queryString := logEntry.request.queryString.map (fun q => ⟨q.name, q.value⟩)
    requestHeaders := logEntry.request.headers.map (fun h => ⟨h.name, h.value⟩)
    status := logEntry.response.status
    responseHeaders := responseHeaders
    responseBody := responseBody
    contentType := findContentType responseHeaders
    timestamp := logEntry.startedDateTime }

/-! ## C5: base64 round trip -/

theorem decode_encodeBase64 (s : String) : decodeBase64 (encodeBase64 s) = s := by
  unfold decodeBase64 encodeBase64
  rw [b64_roundtrip (utf8Encode s) (utf8Encode_lt_256 s)]
  unfold utf8Encode
  rw [utf8Decode_encode_data]

/-- C5 (confirmed): `decode(encode(S)) = S` for every string, and an entry
ingested from a response whose `text` is `encode(S)` with
`encoding: "base64"` has `responseBody = S`. -/
theorem C5_base64_roundtrip :
    (∀ s : String, decodeBase64 (encodeBase64 s) = s) ∧
    (∀ (le : HarLogEntry) (S : String),
      le.response.content.text = some (encodeBase64 S) →
      le.response.content.encoding = some "base64" →
      (transformEntry le).responseBody = S) := by
  refine ⟨decode_encodeBase64, ?_⟩
  intro le S htext henc
  unfold transformEntry
  simp only [htext, henc]
  by_cases hS : encodeBase64 S = ""
  · rw [if_neg (by simpa using hS)]
    exact (encodeBase64_eq_empty hS).symm
  · rw [if_pos (by simpa using hS), if_pos trivial]
    exact decode_encodeBase64 S

/-- A concrete ingested entry whose body was recorded base64-encoded. -/
def sampleLog : HarLogEntry :=
  { startedDateTime := "2024-01-01T00:00:00.000Z"
    request := { method := "get", url := "http://h/a", headers := [], queryString := [] }
    response := { status := 200, headers := []
                  content := { size := 2, mimeType := "text/plain"
                               text := some (encodeBase64 "Hi"), encoding := some "base64" } } }

/-- C5 witness: the round trip on `"Hi"` and its ingestion. -/
theorem C5_base64_roundtrip_witness :
    decodeBase64 (encodeBase64 "Hi") = "Hi" ∧
    (transformEntry sampleLog).responseBody = "Hi" :=
  ⟨C5_base64_roundtrip.1 "Hi", C5_base64_roundtrip.2 sampleLog "Hi" rfl rfl⟩

/-! ## C8: ingestion completeness -/

theorem header_map_id (l : List Header) : l.map (fun h => (⟨h.name, h.value⟩ : Header)) = l := by
  induction l with
  | nil => rfl
  | cons h t ih => rw [List.map_cons, ih]

/-- C8 (confirmed): `transformEntry` carries over the upper-cased method,
the verbatim URL, all query parameters and request/response headers in
source order, the status and the unmodified timestamp. -/
theorem C8_ingestion_completeness (le : HarLogEntry) :
    (transformEntry le).method = jsToUpper le.request.method ∧
    (transformEntry le).url = le.request.url ∧
    (transformEntry le).queryString = le.request.queryString ∧
    (transformEntry le).requestHeaders = le.request.headers ∧
    (transformEntry le).status = le.response.status ∧
    (transformEntry le).responseHeaders = le.response.headers ∧
    (transformEntry le).timestamp = le.startedDateTime := by
  unfold transformEntry
  refine ⟨rfl, rfl, ?_, ?_, rfl, ?_, rfl⟩ <;> exact header_map_id _

/-! ## Untyped ingestion: `validateHarStructure` and `parseHarFile`'s loop

`parseHarFile` reads a file and `JSON.parse`s it; both happen before the
logic under verification, so the embedding starts from the parsed JSON
document.  JavaScript is untyped, so the per-item converter is modelled on
JSON values, throwing (`Except.error`) exactly where the source's property
accesses would throw a `TypeError`; at non-throwing sites where JS would
store a non-string/number value in a typed field, the model requires the
well-typed shape instead (noted inline) — no claim depends on those
values. -/

/-- A JSON value (the output of `JSON.parse`).  `Option Json` at access
sites plays the role of possibly-`undefined` property reads. -/
inductive Json where
  | null
  | bool (b : Bool)
  | num (n : Int)
  | str (s : String)
  | arr (items : List Json)
  | obj (fields : List (String × Json))
deriving Repr

/-- JS property read `v[k]` on a parsed-JSON value. -/
def jsGetField : Json → String → Option Json
  | .obj fields, k => (fields.find? (fun p => p.1 == k)).map Prod.snd
  | _, _ => none

/-- `typeof v === 'object' && v !== null` for a parsed-JSON value. -/
def jsIsObjectNonNull : Json → Bool
  | .obj _ => true
  | .arr _ => true
  | _ => false

/-- `validateHarStructure` from the parser module. -/
def validateHarStructure (data : Json) : Bool :=
  if !jsIsObjectNonNull data then false
  else
    match jsGetField data "log" with
    | some l =>
      if !jsIsObjectNonNull l then false
      else
        match jsGetField l "entries" with
        | some (.arr _) => true
        | _ => false
    | none => false

/-- The `log.entries` array of a validated document. -/
def harEntriesOf (data : Json) : List Json :=
  match jsGetField data "log" with
  | some l =>
    match jsGetField l "entries" with
    | some (.arr items) => items
    | _ => []
  | none => []

/-- A property access `v.k` that throws on `undefined`/`null` receivers. -/
def jsAccess (v : Option Json) (k : String) : Except String (Option Json) :=
  match v with
  | none => .error ("Cannot read properties of undefined (reading '" ++ k ++ "')")
  | some .null => .error ("Cannot read properties of null (reading '" ++ k ++ "')")
  | some w => .ok (jsGetField w k)

/-- JS truthiness of a possibly-undefined JSON value. -/
def jsTruthy : Option Json → Bool
  | none => false
  | some .null => false
  | some (.bool b) => b
  | some (.num n) => n != 0
  | some (.str s) => s != ""
  | some (.arr _) => true
  | some (.obj _) => true

/-- One element of a `headers`/`queryString` array: `h.name` / `h.value`
(the model requires string name/value where JS would silently store any
value). -/
def headerOfJson (v : Json) : Except String Header :=
  match v with
  | .null => .error "Cannot read properties of null (reading 'name')"
  | .obj _ =>
    match jsGetField v "name", jsGetField v "value" with
    | some (.str n), some (.str val) => .ok ⟨n, val⟩
    | _, _ => .error "header name or value is not a string"
  | _ => .error "header item is not an object"

/-- `xs.map(h => ...)` over a possibly-absent, possibly-non-array value. -/
def headerListOfJson (v : Option Json) : Except String (List Header) :=
  match v with
  | none => .error "Cannot read properties of undefined (reading 'map')"
  | some (.arr items) => items.mapM headerOfJson
  | some _ => .error ".map is not a function"

/-- `transformEntry` applied to an untyped JSON log entry, with the
source's evaluation order: body (via `response.content`), response
headers, then the fields of the returned object. -/
def transformEntryJson (v : Json) : Except String HarEntry := do
  -- `const { request, response, startedDateTime } = logEntry`
  match v with
  | .null => throw "Cannot destructure property 'request' of 'logEntry' as it is null."
  | _ => pure ()
  let request := jsGetField v "request"
  let response := jsGetField v "response"
  let startedDateTime := jsGetField v "startedDateTime"
  -- `if (response.content.text)` and the base64 branch
  let content ← jsAccess response "content"
  let text ← jsAccess content "text"
  let responseBody ←
    if jsTruthy text then do
      let encoding ← jsAccess content "encoding"
      match text with
      | some (.str t) =>
        match encoding with
        | some (.str e) => if e = "base64" then pure (decodeBase64 t) else pure t
        | _ => pure t
      | _ => throw "content.text is not a string"
    else
      pure ""
  -- `const responseHeaders = response.headers.map(...)`
  let responseHeaders ← headerListOfJson (← jsAccess response "headers")
  -- the returned object literal, fields in source order
  let method ←
    match ← jsAccess request "method" with
    | some (.str s) => pure (jsToUpper s)
    | some _ => throw "request.method.toUpperCase is not a function"
    | none => throw "Cannot read properties of undefined (reading 'toUpperCase')"
  let url ←
    match ← jsAccess request "url" with
    | some (.str u) => pure u
    | some _ => throw "url.match is not a function"
    | none => throw "Cannot read properties of undefined (reading 'match')"
  let queryString ← headerListOfJson (← jsAccess request "queryString")
  let requestHeaders ← headerListOfJson (← jsAccess request "headers")
  let status :=
    match jsGetField v "response" with
    | some r =>
      match jsGetField r "status" with
      | some (.num n) => n.toNat
      | _ => 0
    | none => 0
  let timestamp :=
    match startedDateTime with
    | some (.str s) => s
    | _ => ""
  pure
    { method := method
      url := url
      path := extractPath url
      queryString := queryString
      requestHeaders := requestHeaders
      status := status
      responseHeaders := responseHeaders
      responseBody := responseBody
      contentType := findContentType responseHeaders
      timestamp := timestamp }

/-- `ParseResult` from `src/types/index.ts`. -/
structure ParseResult where
  entries : List HarEntry
  errors : List String
deriving Repr

/-- One iteration of `parseHarFile`'s loop at index `ix.1`: push the
converted entry, or catch the thrown error and push its formatted message. -/
def parseStep (acc : ParseResult) (ix : Nat × Json) : ParseResult :=
  match transformEntryJson ix.2 with
  | .ok e => { acc with entries := acc.entries ++ [e] }
  | .error m =>
    { acc with errors :=
        acc.errors ++ ["Error parsing entry " ++ toString ix.1 ++ ": " ++ m] }

/-- The document-level part of `parseHarFile`: structural validation, then the
indexed catch-and-continue conversion loop. -/
def parseHarEntries (doc : Json) : ParseResult :=
  if validateHarStructure doc then
    (harEntriesOf doc).enum.foldl parseStep ⟨[], []⟩
  else
    ⟨[], ["Invalid HAR file structure: missing log.entries array"]⟩

/-- The formatted message contributed by a failing item, `none` on success. -/
def entryErrorOf (ix : Nat × Json) : Option String :=
  match transformEntryJson ix.2 with
  | .ok _ => none
  | .error m => some ("Error parsing entry " ++ toString ix.1 ++ ": " ++ m)

theorem parseFold_eq : ∀ (items : List (Nat × Json)) (acc : ParseResult),
    items.foldl parseStep acc =
      ⟨acc.entries ++ items.filterMap (fun ix => (transformEntryJson ix.2).toOption),
       acc.errors ++ items.filterMap entryErrorOf⟩
  | [], acc => by simp
  | ix :: t, acc => by
    rw [List.foldl_cons, parseFold_eq t (parseStep acc ix)]
    cases h : transformEntryJson ix.2 with
    | ok e =>
      simp [parseStep, entryErrorOf, h, Except.toOption, List.filterMap_cons]
    | error m =>
      simp [parseStep, entryErrorOf, h, Except.toOption, List.filterMap_cons]

theorem enumFrom_filterMap_snd {α β : Type} (g : α → Option β) :
    ∀ (l : List α) (n : Nat),
      (List.enumFrom n l).filterMap (fun ix => g ix.2) = l.filterMap g
  | [], _ => rfl
  | a :: t, n => by
    simp only [List.enumFrom, List.filterMap_cons]
    rw [enumFrom_filterMap_snd g t (n + 1)]

/-- C6 (confirmed): for a structurally valid document, the loop converts
every item, collecting successes in order and formatting each failure as
`"Error parsing entry {index}: {message}"` while continuing with the rest;
for an invalid document it returns zero entries and exactly one top-level
error without attempting item conversion. -/
theorem C6_error_accumulation (doc : Json) :
    (validateHarStructure doc = true →
      (parseHarEntries doc).entries =
        (harEntriesOf doc).filterMap (fun it => (transformEntryJson it).toOption) ∧
      (parseHarEntries doc).errors =
        (harEntriesOf doc).enum.filterMap entryErrorOf) ∧
    (validateHarStructure doc = false →
      parseHarEntries doc =
        ⟨[], ["Invalid HAR file structure: missing log.entries array"]⟩) := by
  constructor
  · intro hv
    unfold parseHarEntries
    rw [if_pos hv, parseFold_eq]
    constructor
    · show [] ++ _ = _
      rw [List.nil_append]
      exact enumFrom_filterMap_snd (fun it => (transformEntryJson it).toOption)
        (harEntriesOf doc) 0
    · rfl
  · intro hv
    unfold parseHarEntries
    rw [if_neg (by rw [hv]; exact Bool.noConfusion)]

/-- A well-formed log-entry JSON object (no `content.text`, so an empty
body). -/
def okItemJson : Json := .obj
  [("startedDateTime", .str "T"),
   ("request", .obj
     [("method", .str "get"), ("url", .str "http://h/a"),
      ("headers", .arr []), ("queryString", .arr [])]),
   ("response", .obj
     [("status", .num 200), ("headers", .arr []),
      ("content", .obj [("size", .num 0), ("mimeType", .str "text/plain")])])]

/-- A document whose middle entry is `null` and throws during conversion. -/
def sampleDoc : Json := .obj
  [("log", .obj
    [("version", .str "1.2"),
     ("entries", .arr [okItemJson, Json.null, okItemJson])])]

/-- C6 witness: items 0 and 2 convert, item 1 fails; its error is formatted
with its index and conversion continued past it. -/
theorem C6_error_accumulation_witness :
    (parseHarEntries sampleDoc).entries =
      (harEntriesOf sampleDoc).filterMap (fun it => (transformEntryJson it).toOption) ∧
    (parseHarEntries sampleDoc).entries.length = 2 ∧
    (parseHarEntries sampleDoc).errors =
      ["Error parsing entry 1: Cannot destructure property 'request' of 'logEntry' as it is null."] :=
  ⟨((C6_error_accumulation sampleDoc).1 rfl).1, by rfl, by rfl⟩

/-! ## The text codec: `formatEntry` / `parseFormattedEntry`

`formatEntry` renders an entry as newline-joined lines;
`parseFormattedEntry` splits on newlines, matches the first line against
the anchored regex `(\S+)\s+(\S+)\s+(\d+)\s+(\S+)\s+\[(.+)\]$` (with `^`),
and folds the remaining lines through a four-state section machine. -/

/-- ECMAScript `\s` (the regex whitespace class). -/
def jsIsSpace (c : Char) : Bool :=
  c.toNat = 32 ∨ (9 ≤ c.toNat ∧ c.toNat ≤ 13) ∨ c.toNat = 160 ∨ c.toNat = 5760 ∨
  (8192 ≤ c.toNat ∧ c.toNat ≤ 8202) ∨ c.toNat = 8232 ∨ c.toNat = 8233 ∨
  c.toNat = 8239 ∨ c.toNat = 8287 ∨ c.toNat = 12288 ∨ c.toNat = 65279

/-- ECMAScript line terminators (which regex `.` does not match). -/
def isLineTerm (c : Char) : Bool :=
  c.toNat = 10 ∨ c.toNat = 13 ∨ c.toNat = 8232 ∨ c.toNat = 8233

/-- ECMAScript `\d`. -/
def jsIsDigit (c : Char) : Bool := 48 ≤ c.toNat ∧ c.toNat ≤ 57

/-- `text.split('\n')` on character lists. -/
def splitNl : List Char → List (List Char)
  | [] => [[]]
  | c :: rest =>
    match splitNl rest with
    | [] => [[c]]
    | h :: t => if c = '\n' then [] :: h :: t else (c :: h) :: t

/-- `lines.join('\n')` on character lists. -/
def joinNl : List (List Char) → List Char
  | [] => []
  | [l] => l
  | l :: l2 :: ls => l ++ '\n' :: joinNl (l2 :: ls)

theorem splitNl_ne_nil (l : List Char) : splitNl l ≠ [] := by
  cases l with
  | nil => simp [splitNl]
  | cons c rest =>
    unfold splitNl
    cases splitNl rest with
    | nil => simp
    | cons h t =>
      by_cases hc : c = '\n' <;> simp [hc]

theorem splitNl_cons (c : Char) (rest : List Char) :
    splitNl (c :: rest) =
      match splitNl rest with
      | [] => [[c]]
      | h :: t => if c = '\n' then [] :: h :: t else (c :: h) :: t := rfl

theorem splitNl_no_newline {a : List Char} (h : '\n' ∉ a) : splitNl a = [a] := by
  induction a with
  | nil => rfl
  | cons c rest ih =>
    have hc : c ≠ '\n' := fun hx => h (hx ▸ List.mem_cons_self c rest)
    have hrest : '\n' ∉ rest := fun hx => h (List.mem_cons_of_mem c hx)
    rw [splitNl_cons, ih hrest]
    simp [hc]

theorem splitNl_append {a : List Char} (r : List Char) (h : '\n' ∉ a) :
    splitNl (a ++ '\n' :: r) = a :: splitNl r := by
  induction a with
  | nil =>
    rw [List.nil_append, splitNl_cons]
    cases hs : splitNl r with
    | nil => exact absurd hs (splitNl_ne_nil r)
    | cons h' t => simp
  | cons c rest ih =>
    have hc : c ≠ '\n' := fun hx => h (hx ▸ List.mem_cons_self c rest)
    have hrest : '\n' ∉ rest := fun hx => h (List.mem_cons_of_mem c hx)
    rw [List.cons_append, splitNl_cons, ih hrest]
    simp [hc]

theorem splitNl_joinNl : ∀ (ls : List (List Char)), ls ≠ [] →
    (∀ l ∈ ls, '\n' ∉ l) → splitNl (joinNl ls) = ls
  | [], h, _ => absurd rfl h
  | [l], _, hn => by
    rw [show joinNl [l] = l from rfl]
    exact splitNl_no_newline (hn l (List.mem_singleton.mpr rfl))
  | l :: l2 :: t, _, hn => by
    rw [show joinNl (l :: l2 :: t) = l ++ '\n' :: joinNl (l2 :: t) from rfl]
    rw [splitNl_append _ (hn l (List.mem_cons_self _ _))]
    rw [splitNl_joinNl (l2 :: t) (by simp) (fun x hx => hn x (List.mem_cons_of_mem l hx))]

/-- `content.indexOf(': ')`, `none` for −1. -/
def idxOfColonSpace : List Char → Option Nat
  | [] => none
  | c :: rest =>
    if c = ':' ∧ rest.head? = some ' ' then some 0
    else (idxOfColonSpace rest).map (· + 1)

/-- `content.indexOf('=')`, `none` for −1. -/
def idxOfEq : List Char → Option Nat
  | [] => none
  | c :: rest => if c = '=' then some 0 else (idxOfEq rest).map (· + 1)

theorem idxOfColonSpace_name {nm : List Char} (v : List Char)
    (hnone : idxOfColonSpace nm = none) (hne : nm ≠ []) :
    idxOfColonSpace (nm ++ ':' :: ' ' :: v) = some nm.length := by
  induction nm with
  | nil => exact absurd rfl hne
  | cons c nm' ih =>
    rw [List.cons_append]
    unfold idxOfColonSpace at hnone ⊢
    cases nm' with
    | nil =>
      rw [if_neg (by simp)]
      rw [show idxOfColonSpace ([] ++ ':' :: ' ' :: v) = some 0 from rfl]
      rfl
    | cons c2 nm'' =>
      by_cases hcond : c = ':' ∧ c2 = ' '
      · rw [if_pos (by simp [hcond.1, hcond.2])] at hnone
        exact Option.noConfusion hnone
      · have hcond' : ¬ (c = ':' ∧ (c2 :: nm'').head? = some ' ') := by
          simpa using hcond
        rw [if_neg hcond'] at hnone
        have htail : idxOfColonSpace (c2 :: nm'') = none := by
          cases hx : idxOfColonSpace (c2 :: nm'') with
          | none => rfl
          | some k => rw [hx] at hnone; exact Option.noConfusion hnone
        rw [if_neg (by
          intro hc
          rcases hc with ⟨hc1, hc2⟩
          rw [List.cons_append, List.head?_cons] at hc2
          exact hcond ⟨hc1, by simpa using hc2⟩)]
        rw [ih htail (by simp)]
        rfl

theorem idxOfEq_name {nm : List Char} (v : List Char)
    (hnone : idxOfEq nm = none) (hne : nm ≠ []) :
    idxOfEq (nm ++ '=' :: v) = some nm.length := by
  induction nm with
  | nil => exact absurd rfl hne
  | cons c nm' ih =>
    rw [List.cons_append]
    unfold idxOfEq at hnone ⊢
    by_cases hc : c = '='
    · rw [if_pos hc] at hnone
      exact Option.noConfusion hnone
    · rw [if_neg hc] at hnone
      have htail : idxOfEq nm' = none := by
        cases hx : idxOfEq nm' with
        | none => rfl
        | some k => rw [hx] at hnone; exact Option.noConfusion hnone
      rw [if_neg hc]
      cases nm' with
      | nil =>
        rw [show idxOfEq ([] ++ '=' :: v) = some 0 from rfl]
        rfl
      | cons c2 nm'' =>
        rw [ih htail (by simp)]
        rfl

theorem take_append_len {α : Type} (a b : List α) : (a ++ b).take a.length = a := by
  induction a with
  | nil => rfl
  | cons x t ih => simp [ih]

theorem drop_append_len {α : Type} (a b : List α) : (a ++ b).drop a.length = b := by
  induction a with
  | nil => rfl
  | cons x t ih => simp [ih]

theorem takeWhile_run {p : Char → Bool} (a : List Char) (c : Char) (r : List Char)
    (ha : ∀ x ∈ a, p x = true) (hc : p c = false) :
    (a ++ c :: r).takeWhile p = a := by
  induction a with
  | nil => simp [List.takeWhile_cons, hc]
  | cons x t ih =>
    rw [List.cons_append, List.takeWhile_cons, ha x (List.mem_cons_self x t)]
    rw [ih (fun y hy => ha y (List.mem_cons_of_mem x hy))]
    rfl

theorem dropWhile_run {p : Char → Bool} (a : List Char) (c : Char) (r : List Char)
    (ha : ∀ x ∈ a, p x = true) (hc : p c = false) :
    (a ++ c :: r).dropWhile p = c :: r := by
  induction a with
  | nil => simp [List.dropWhile_cons, hc]
  | cons x t ih =>
    rw [List.cons_append, List.dropWhile_cons, ha x (List.mem_cons_self x t)]
    simp only [if_true]
    exact ih (fun y hy => ha y (List.mem_cons_of_mem x hy))

theorem takeWhile_space_before (P X : List Char)
    (hp : P ≠ []) (hpS : ∀ x ∈ P, jsIsSpace x = false) :
    (' ' :: (P ++ X)).takeWhile jsIsSpace = [' '] := by
  cases P with
  | nil => exact absurd rfl hp
  | cons ph pt =>
    rw [List.cons_append, List.takeWhile_cons]
    rw [show jsIsSpace ' ' = true from by decide]
    rw [List.takeWhile_cons, hpS ph (List.mem_cons_self ph pt)]
    rfl

theorem dropWhile_space_before (P X : List Char)
    (hp : P ≠ []) (hpS : ∀ x ∈ P, jsIsSpace x = false) :
    (' ' :: (P ++ X)).dropWhile jsIsSpace = P ++ X := by
  cases P with
  | nil => exact absurd rfl hp
  | cons ph pt =>
    rw [List.cons_append, List.dropWhile_cons]
    rw [show jsIsSpace ' ' = true from by decide]
    simp only [if_true]
    rw [List.dropWhile_cons, hpS ph (List.mem_cons_self ph pt)]
    rfl

theorem takeWhile_space_cons (c : Char) (r : List Char) (hc : jsIsSpace c = false) :
    (' ' :: c :: r).takeWhile jsIsSpace = [' '] := by
  rw [List.takeWhile_cons]
  rw [show jsIsSpace ' ' = true from by decide]
  rw [List.takeWhile_cons, hc]
  rfl

theorem dropWhile_space_cons (c : Char) (r : List Char) (hc : jsIsSpace c = false) :
    (' ' :: c :: r).dropWhile jsIsSpace = c :: r := by
  rw [List.dropWhile_cons]
  rw [show jsIsSpace ' ' = true from by decide]
  simp only [if_true]
  rw [List.dropWhile_cons, hc]
  rfl

theorem digit_not_space {c : Char} (h : jsIsDigit c = true) : jsIsSpace c = false := by
  unfold jsIsDigit at h
  unfold jsIsSpace
  rw [decide_eq_true_eq] at h
  rw [decide_eq_false_iff_not]
  omega

/-- The first-line pattern `^(\S+)\s+(\S+)\s+(\d+)\s+(\S+)\s+\[(.+)\]$`.
Because `\S`/`\s` (and `\d` before `\s`) have disjoint character classes and
the pattern is anchored at both ends, the backtracking regex is
deterministic: every group is forced to a maximal run, the literal `[`
must follow the fourth run's spaces, and the greedy `(.+)\]$` makes group 5
everything between that `[` and a final `]`.  This function is that
deterministic reading. -/
def parseFirstLine (l : List Char) :
    Option (List Char × List Char × List Char × List Char × List Char) :=
  let g1 := l.takeWhile (fun c => !jsIsSpace c)
  let r1 := l.dropWhile (fun c => !jsIsSpace c)
  let s1 := r1.takeWhile jsIsSpace
  let r2 := r1.dropWhile jsIsSpace
  let g2 := r2.takeWhile (fun c => !jsIsSpace c)
  let r3 := r2.dropWhile (fun c => !jsIsSpace c)
  let s2 := r3.takeWhile jsIsSpace
  let r4 := r3.dropWhile jsIsSpace
  let d := r4.takeWhile jsIsDigit
  let r5 := r4.dropWhile jsIsDigit
  let s3 := r5.takeWhile jsIsSpace
  let r6 := r5.dropWhile jsIsSpace
  let g4 := r6.takeWhile (fun c => !jsIsSpace c)
  let r7 := r6.dropWhile (fun c => !jsIsSpace c)
  let s4 := r7.takeWhile jsIsSpace
  let r8 := r7.dropWhile jsIsSpace
  if g1 = [] ∨ s1 = [] ∨ g2 = [] ∨ s2 = [] ∨ d = [] ∨ s3 = [] ∨ g4 = [] ∨ s4 = [] then
    none
  else
    match r8 with
    | '[' :: mid =>
      if mid.getLast? = some ']' ∧ mid.dropLast ≠ [] ∧
          mid.dropLast.all (fun c => !isLineTerm c) then
        some (g1, g2, d, g4, mid.dropLast)
      else none
    | _ => none

theorem parseFirstLine_fmt (m P D CT TS : List Char)
    (hm : m ≠ []) (hmS : ∀ x ∈ m, jsIsSpace x = false)
    (hp : P ≠ []) (hpS : ∀ x ∈ P, jsIsSpace x = false)
    (hd : D ≠ []) (hdD : ∀ x ∈ D, jsIsDigit x = true)
    (hct : CT ≠ []) (hctS : ∀ x ∈ CT, jsIsSpace x = false)
    (hts : TS ≠ []) (htsL : ∀ x ∈ TS, isLineTerm x = false) :
    parseFirstLine (m ++ ' ' :: (P ++ ' ' :: (D ++ ' ' :: (CT ++ ' ' :: '[' :: (TS ++ [']'])))))
      = some (m, P, D, CT, TS) := by
  have hmT : ∀ x ∈ m, (fun c => !jsIsSpace c) x = true := by
    intro x hx
    simp [hmS x hx]
  have hpT : ∀ x ∈ P, (fun c => !jsIsSpace c) x = true := by
    intro x hx
    simp [hpS x hx]
  have hctT : ∀ x ∈ CT, (fun c => !jsIsSpace c) x = true := by
    intro x hx
    simp [hctS x hx]
  have hdS : ∀ x ∈ D, jsIsSpace x = false := fun x hx => digit_not_space (hdD x hx)
  have hspF : (fun c => !jsIsSpace c) ' ' = false := by decide
  simp only [parseFirstLine]
  rw [takeWhile_run m ' ' _ hmT hspF, dropWhile_run m ' ' _ hmT hspF]
  rw [takeWhile_space_before P _ hp hpS, dropWhile_space_before P _ hp hpS]
  rw [takeWhile_run P ' ' _ hpT hspF, dropWhile_run P ' ' _ hpT hspF]
  rw [takeWhile_space_before D _ hd hdS, dropWhile_space_before D _ hd hdS]
  rw [takeWhile_run D ' ' _ hdD (by decide), dropWhile_run D ' ' _ hdD (by decide)]
  rw [takeWhile_space_before CT _ hct hctS, dropWhile_space_before CT _ hct hctS]
  rw [takeWhile_run CT ' ' _ hctT hspF, dropWhile_run CT ' ' _ hctT hspF]
  rw [takeWhile_space_cons '[' _ (by decide), dropWhile_space_cons '[' _ (by decide)]
  rw [if_neg (by simp [hm, hp, hd, hct])]
  change (if (TS ++ [']']).getLast? = some ']' ∧ (TS ++ [']']).dropLast ≠ [] ∧
      (TS ++ [']']).dropLast.all (fun c => !isLineTerm c) then _ else _) = _
  rw [if_pos ?_]
  · rw [List.dropLast_concat]
  · refine ⟨List.getLast?_concat _, ?_, ?_⟩
    · rw [List.dropLast_concat]
      exact hts
    · rw [List.dropLast_concat]
      rw [List.all_eq_true]
      intro x hx
      rw [htsL x hx]
      rfl

/-- `parseInt(s, 10)` restricted to `\d+` matches. -/
def digitsToNat (l : List Char) : Nat := l.foldl (fun a c => a * 10 + (c.toNat - 48)) 0

set_option maxRecDepth 8000 in
set_option maxHeartbeats 1000000 in
/-- Decimal rendering of an HTTP status (100–599) consists of digits and
parses back to the same number. -/
theorem repr_status_roundtrip : ∀ n < 600,
    ((Nat.repr n).data.all jsIsDigit ∧ (Nat.repr n).data ≠ [] ∧
     digitsToNat (Nat.repr n).data = n) := by decide

/-- One formatted header line: `` `  ${name}: ${value}` ``. -/
def fmtHdrLine (h : Header) : List Char :=
  ' ' :: ' ' :: (h.name.data ++ ':' :: ' ' :: h.value.data)

/-- One formatted query line: `` `  ${name}=${value}` ``. -/
def fmtQueryLine (q : Header) : List Char :=
  ' ' :: ' ' :: (q.name.data ++ '=' :: q.value.data)

/-- The body preview: truncate past 200 characters with a `...` marker. -/
def bodyPreview (body : List Char) : List Char :=
  if 200 < body.length then body.take 200 ++ "...".data else body

/-- The summary line `` `${method} ${path} ${status} ${contentType} [${timestamp}]` ``. -/
def firstLineOf (e : HarEntry) : List Char :=
  e.method.data ++ ' ' :: (e.path.data ++ ' ' :: ((Nat.repr e.status).data ++ ' ' ::
    (e.contentType.data ++ ' ' :: '[' :: (e.timestamp.data ++ [']']))))

/-- The lines pushed by `formatEntry`, in order. -/
def formatLines (e : HarEntry) : List (List Char) :=
  firstLineOf e ::
    ((if 0 < e.requestHeaders.length then
        "Request Headers:".data :: e.requestHeaders.map fmtHdrLine else [])
     ++ ((if 0 < e.queryString.length then
            "Query Parameters:".data :: e.queryString.map fmtQueryLine else [])
         ++ ((if 0 < e.responseHeaders.length then
                "Response Headers:".data :: e.responseHeaders.map fmtHdrLine else [])
             ++ (if e.responseBody.data ≠ [] then
                   ["Response Body:".data, ' ' :: ' ' :: bodyPreview e.responseBody.data]
                 else []))))

/-- `formatEntry` from the parser module: the lines joined with `\n`. -/
def formatEntry (e : HarEntry) : String := ⟨joinNl (formatLines e)⟩

/-- An indented line in a header section: split at the first `': '`;
push only when the split index is positive. -/
def applyHeaderLine (content : List Char) (e : HarEntry) (isReq : Bool) : HarEntry :=
  match idxOfColonSpace content with
  | some i =>
    if 0 < i then
      if isReq then
        { e with requestHeaders := e.requestHeaders ++ [⟨⟨content.take i⟩, ⟨content.drop (i + 2)⟩⟩] }
      else
        { e with responseHeaders := e.responseHeaders ++ [⟨⟨content.take i⟩, ⟨content.drop (i + 2)⟩⟩] }
    else e
  | none => e

/-- An indented line in the query section: split at the first `'='`. -/
def applyQueryLine (content : List Char) (e : HarEntry) : HarEntry :=
  match idxOfEq content with
  | some i =>
    if 0 < i then
      { e with queryString := e.queryString ++ [⟨⟨content.take i⟩, ⟨content.drop (i + 1)⟩⟩] }
    else e
  | none => e

/-- An indented line in the body section: strip a trailing `...` marker
unconditionally, then overwrite the body. -/
def applyBodyLine (content : List Char) (e : HarEntry) : HarEntry :=
  { e with responseBody :=
      ⟨if "...".data.isSuffixOf content then content.take (content.length - 3) else content⟩ }

/-- The line loop of `parseFormattedEntry`: four literal section markers
set the current section; every other line starting with two spaces is fed
to the current section's handler. -/
def processLines : List (List Char) → String → HarEntry → HarEntry
  | [], _, e => e
  | line :: rest, cur, e =>
    if line = "Request Headers:".data then processLines rest "requestHeaders" e
    else if line = "Query Parameters:".data then processLines rest "queryParams" e
    else if line = "Response Headers:".data then processLines rest "responseHeaders" e
    else if line = "Response Body:".data then processLines rest "body" e
    else if line.take 2 = [' ', ' '] then
      if cur = "requestHeaders" then processLines rest cur (applyHeaderLine (line.drop 2) e true)
      else if cur = "responseHeaders" then
        processLines rest cur (applyHeaderLine (line.drop 2) e false)
      else if cur = "queryParams" then processLines rest cur (applyQueryLine (line.drop 2) e)
      else if cur = "body" then processLines rest cur (applyBodyLine (line.drop 2) e)
      else processLines rest cur e
    else processLines rest cur e

/-- `parseFormattedEntry` from the parser module; `none` models the thrown
format error when the first line does not match the pattern. -/
def parseFormattedEntry (text : String) : Option HarEntry :=
  match splitNl text.data with
  | [] => none
  | first :: rest =>
    match parseFirstLine first with
    | none => none
    | some (m, p, st, ct, ts) =>
      some (processLines rest ""
        { method := ⟨m⟩
          url := "http://localhost" ++ ⟨p⟩
          path := ⟨p⟩
          queryString := []
          requestHeaders := []
          status := digitsToNat st
          responseHeaders := []
          responseBody := ""
          contentType := ⟨ct⟩
          timestamp := ⟨ts⟩ })

theorem processLines_marker_req (rest : List (List Char)) (cur : String) (e : HarEntry) :
    processLines ("Request Headers:".data :: rest) cur e
      = processLines rest "requestHeaders" e := rfl

theorem processLines_marker_qry (rest : List (List Char)) (cur : String) (e : HarEntry) :
    processLines ("Query Parameters:".data :: rest) cur e
      = processLines rest "queryParams" e := rfl

theorem processLines_marker_resp (rest : List (List Char)) (cur : String) (e : HarEntry) :
    processLines ("Response Headers:".data :: rest) cur e
      = processLines rest "responseHeaders" e := rfl

theorem processLines_marker_body (rest : List (List Char)) (cur : String) (e : HarEntry) :
    processLines ("Response Body:".data :: rest) cur e
      = processLines rest "body" e := rfl

theorem processLines_item_req (cs : List Char) (rest : List (List Char)) (e : HarEntry) :
    processLines ((' ' :: ' ' :: cs) :: rest) "requestHeaders" e
      = processLines rest "requestHeaders" (applyHeaderLine cs e true) := rfl

theorem processLines_item_resp (cs : List Char) (rest : List (List Char)) (e : HarEntry) :
    processLines ((' ' :: ' ' :: cs) :: rest) "responseHeaders" e
      = processLines rest "responseHeaders" (applyHeaderLine cs e false) := rfl

theorem processLines_item_qry (cs : List Char) (rest : List (List Char)) (e : HarEntry) :
    processLines ((' ' :: ' ' :: cs) :: rest) "queryParams" e
      = processLines rest "queryParams" (applyQueryLine cs e) := rfl

theorem processLines_item_body (cs : List Char) (rest : List (List Char)) (e : HarEntry) :
    processLines ((' ' :: ' ' :: cs) :: rest) "body" e
      = processLines rest "body" (applyBodyLine cs e) := rfl

theorem applyHeaderLine_fmt (h : Header) (e : HarEntry) (isReq : Bool)
    (hname : h.name.data ≠ []) (hidx : idxOfColonSpace h.name.data = none) :
    applyHeaderLine (h.name.data ++ ':' :: ' ' :: h.value.data) e isReq
      = if isReq then { e with requestHeaders := e.requestHeaders ++ [h] }
        else { e with responseHeaders := e.responseHeaders ++ [h] } := by
  unfold applyHeaderLine
  rw [idxOfColonSpace_name _ hidx hname]
  change (if 0 < h.name.data.length then _ else _) = _
  rw [if_pos (List.length_pos.mpr hname)]
  rw [take_append_len]
  have hshape : h.name.data ++ ':' :: ' ' :: h.value.data
      = (h.name.data ++ [':', ' ']) ++ h.value.data := by simp
  rw [hshape]
  have hlen2 : h.name.data.length + 2 = (h.name.data ++ [':', ' ']).length := by simp
  rw [hlen2, drop_append_len]

theorem applyQueryLine_fmt (q : Header) (e : HarEntry)
    (hname : q.name.data ≠ []) (hidx : idxOfEq q.name.data = none) :
    applyQueryLine (q.name.data ++ '=' :: q.value.data) e
      = { e with queryString := e.queryString ++ [q] } := by
  unfold applyQueryLine
  rw [idxOfEq_name _ hidx hname]
  change (if 0 < q.name.data.length then _ else _) = _
  rw [if_pos (List.length_pos.mpr hname)]
  rw [take_append_len]
  have hshape : q.name.data ++ '=' :: q.value.data
      = (q.name.data ++ ['=']) ++ q.value.data := by simp
  rw [hshape]
  have hlen1 : q.name.data.length + 1 = (q.name.data ++ ['=']).length := by simp
  rw [hlen1, drop_append_len]

theorem process_req_items : ∀ (hdrs : List Header) (rest : List (List Char)) (e : HarEntry),
    (∀ h ∈ hdrs, h.name.data ≠ [] ∧ idxOfColonSpace h.name.data = none) →
    processLines (hdrs.map fmtHdrLine ++ rest) "requestHeaders" e
      = processLines rest "requestHeaders" { e with requestHeaders := e.requestHeaders ++ hdrs }
  | [], rest, e, _ => by
    rw [List.map_nil, List.nil_append]
    congr 1
    conv_rhs => rw [List.append_nil]
  | h :: t, rest, e, hOk => by
    rw [List.map_cons, List.cons_append]
    rw [show fmtHdrLine h = ' ' :: ' ' :: (h.name.data ++ ':' :: ' ' :: h.value.data) from rfl]
    rw [processLines_item_req]
    rw [applyHeaderLine_fmt h e true (hOk h (List.mem_cons_self h t)).1
        (hOk h (List.mem_cons_self h t)).2]
    rw [if_pos rfl]
    rw [process_req_items t rest _ (fun h' hh => hOk h' (List.mem_cons_of_mem h hh))]
    congr 1
    rw [List.append_assoc]
    rfl

theorem process_resp_items : ∀ (hdrs : List Header) (rest : List (List Char)) (e : HarEntry),
    (∀ h ∈ hdrs, h.name.data ≠ [] ∧ idxOfColonSpace h.name.data = none) →
    processLines (hdrs.map fmtHdrLine ++ rest) "responseHeaders" e
      = processLines rest "responseHeaders" { e with responseHeaders := e.responseHeaders ++ hdrs }
  | [], rest, e, _ => by
    rw [List.map_nil, List.nil_append]
    congr 1
    conv_rhs => rw [List.append_nil]
  | h :: t, rest, e, hOk => by
    rw [List.map_cons, List.cons_append]
    rw [show fmtHdrLine h = ' ' :: ' ' :: (h.name.data ++ ':' :: ' ' :: h.value.data) from rfl]
    rw [processLines_item_resp]
    rw [applyHeaderLine_fmt h e false (hOk h (List.mem_cons_self h t)).1
        (hOk h (List.mem_cons_self h t)).2]
    rw [if_neg (by simp)]
    rw [process_resp_items t rest _ (fun h' hh => hOk h' (List.mem_cons_of_mem h hh))]
    congr 1
    rw [List.append_assoc]
    rfl

theorem process_qry_items : ∀ (qs : List Header) (rest : List (List Char)) (e : HarEntry),
    (∀ q ∈ qs, q.name.data ≠ [] ∧ idxOfEq q.name.data = none) →
    processLines (qs.map fmtQueryLine ++ rest) "queryParams" e
      = processLines rest "queryParams" { e with queryString := e.queryString ++ qs }
  | [], rest, e, _ => by
    rw [List.map_nil, List.nil_append]
    congr 1
    conv_rhs => rw [List.append_nil]
  | q :: t, rest, e, hOk => by
    rw [List.map_cons, List.cons_append]
    rw [show fmtQueryLine q = ' ' :: ' ' :: (q.name.data ++ '=' :: q.value.data) from rfl]
    rw [processLines_item_qry]
    rw [applyQueryLine_fmt q e (hOk q (List.mem_cons_self q t)).1
        (hOk q (List.mem_cons_self q t)).2]
    rw [process_qry_items t rest _ (fun q' hq => hOk q' (List.mem_cons_of_mem q hq))]
    congr 1
    rw [List.append_assoc]
    rfl

theorem process_req_section (hdrs : List Header) (rest : List (List Char)) (cur : String)
    (e : HarEntry)
    (hOk : ∀ h ∈ hdrs, h.name.data ≠ [] ∧ idxOfColonSpace h.name.data = none) :
    processLines ((if 0 < hdrs.length then
        "Request Headers:".data :: hdrs.map fmtHdrLine else []) ++ rest) cur e
      = processLines rest (if 0 < hdrs.length then "requestHeaders" else cur)
          { e with requestHeaders := e.requestHeaders ++ hdrs } := by
  by_cases hl : 0 < hdrs.length
  · rw [if_pos hl, if_pos hl, List.cons_append, processLines_marker_req,
      process_req_items hdrs rest e hOk]
  · rw [if_neg hl, if_neg hl, List.nil_append]
    have hnil : hdrs = [] := by
      cases hdrs with
      | nil => rfl
      | cons a t => simp at hl
    subst hnil
    congr 1
    conv_rhs => rw [List.append_nil]

theorem process_qry_section (qs : List Header) (rest : List (List Char)) (cur : String)
    (e : HarEntry)
    (hOk : ∀ q ∈ qs, q.name.data ≠ [] ∧ idxOfEq q.name.data = none) :
    processLines ((if 0 < qs.length then
        "Query Parameters:".data :: qs.map fmtQueryLine else []) ++ rest) cur e
      = processLines rest (if 0 < qs.length then "queryParams" else cur)
          { e with queryString := e.queryString ++ qs } := by
  by_cases hl : 0 < qs.length
  · rw [if_pos hl, if_pos hl, List.cons_append, processLines_marker_qry,
      process_qry_items qs rest e hOk]
  · rw [if_neg hl, if_neg hl, List.nil_append]
    have hnil : qs = [] := by
      cases qs with
      | nil => rfl
      | cons a t => simp at hl
    subst hnil
    congr 1
    conv_rhs => rw [List.append_nil]

theorem process_resp_section (hdrs : List Header) (rest : List (List Char)) (cur : String)
    (e : HarEntry)
    (hOk : ∀ h ∈ hdrs, h.name.data ≠ [] ∧ idxOfColonSpace h.name.data = none) :
    processLines ((if 0 < hdrs.length then
        "Response Headers:".data :: hdrs.map fmtHdrLine else []) ++ rest) cur e
      = processLines rest (if 0 < hdrs.length then "responseHeaders" else cur)
          { e with responseHeaders := e.responseHeaders ++ hdrs } := by
  by_cases hl : 0 < hdrs.length
  · rw [if_pos hl, if_pos hl, List.cons_append, processLines_marker_resp,
      process_resp_items hdrs rest e hOk]
  · rw [if_neg hl, if_neg hl, List.nil_append]
    have hnil : hdrs = [] := by
      cases hdrs with
      | nil => rfl
      | cons a t => simp at hl
    subst hnil
    congr 1
    conv_rhs => rw [List.append_nil]

theorem process_body_section (body : List Char) (cur : String) (e : HarEntry)
    (hlen : body.length ≤ 200) (hempty : e.responseBody = "") :
    processLines (if body ≠ [] then
        ["Response Body:".data, ' ' :: ' ' :: bodyPreview body] else []) cur e
      = { e with responseBody :=
            ⟨if "...".data.isSuffixOf body then body.take (body.length - 3) else body⟩ } := by
  by_cases hb : body = []
  · subst hb
    rw [if_neg (by simp)]
    show e = _
    rw [show ("...".data.isSuffixOf ([] : List Char)) = false from rfl]
    rw [if_neg (by simp)]
    show e = { e with responseBody := "" }
    rw [← hempty]
  · rw [if_pos hb]
    rw [show (["Response Body:".data, ' ' :: ' ' :: bodyPreview body] : List (List Char))
        = "Response Body:".data :: (' ' :: ' ' :: bodyPreview body) :: [] from rfl]
    rw [processLines_marker_body, processLines_item_body]
    rw [show bodyPreview body = body from by
      unfold bodyPreview
      rw [if_neg (by omega)]]
    rfl

/-- A recorded header survives the text codec: non-empty name, no `': '`
inside the name, and no raw newlines. -/
def HdrOk (h : Header) : Prop :=
  h.name.data ≠ [] ∧ idxOfColonSpace h.name.data = none ∧
  '\n' ∉ h.name.data ∧ '\n' ∉ h.value.data

/-- A recorded query parameter survives the text codec: non-empty name, no
`'='` inside the name, and no raw newlines. -/
def QryOk (q : Header) : Prop :=
  q.name.data ≠ [] ∧ idxOfEq q.name.data = none ∧
  '\n' ∉ q.name.data ∧ '\n' ∉ q.value.data

/-- The well-formedness envelope of the data model for the text codec:
method, path and content type are non-empty and whitespace-free, the status
is an HTTP status (100–599), the timestamp is non-empty without line
terminators, headers and query parameters satisfy `HdrOk`/`QryOk`, and the
response body has at most 200 characters and no newline. -/
def EntryWF (e : HarEntry) : Prop :=
  (e.method.data ≠ [] ∧ ∀ x ∈ e.method.data, jsIsSpace x = false) ∧
  (e.path.data ≠ [] ∧ ∀ x ∈ e.path.data, jsIsSpace x = false) ∧
  (e.contentType.data ≠ [] ∧ ∀ x ∈ e.contentType.data, jsIsSpace x = false) ∧
  100 ≤ e.status ∧ e.status ≤ 599 ∧
  (e.timestamp.data ≠ [] ∧ ∀ x ∈ e.timestamp.data, isLineTerm x = false) ∧
  (∀ h ∈ e.requestHeaders, HdrOk h) ∧
  (∀ h ∈ e.responseHeaders, HdrOk h) ∧
  (∀ q ∈ e.queryString, QryOk q) ∧
  e.responseBody.data.length ≤ 200 ∧ '\n' ∉ e.responseBody.data

instance (h : Header) : Decidable (HdrOk h) := by
  unfold HdrOk
  infer_instance

instance (q : Header) : Decidable (QryOk q) := by
  unfold QryOk
  infer_instance

instance (e : HarEntry) : Decidable (EntryWF e) := by
  unfold EntryWF
  infer_instance

theorem nmem_app {α : Type} {c : α} {a b : List α} (ha : c ∉ a) (hb : c ∉ b) :
    c ∉ a ++ b := fun h => (List.mem_append.mp h).elim ha hb

theorem nmem_cons2 {α : Type} {c x : α} {l : List α} (h1 : c ≠ x) (h2 : c ∉ l) :
    c ∉ x :: l := fun h => (List.mem_cons.mp h).elim h1 h2

theorem nmem_of_all_false {c : Char} {l : List Char} {p : Char → Bool}
    (hl : ∀ x ∈ l, p x = false) (hc : p c = true) : c ∉ l := by
  intro hm
  rw [hl c hm] at hc
  exact Bool.noConfusion hc

theorem nmem_of_all_true {c : Char} {l : List Char} {p : Char → Bool}
    (hl : ∀ x ∈ l, p x = true) (hc : p c = false) : c ∉ l := by
  intro hm
  rw [hl c hm] at hc
  exact Bool.noConfusion hc

theorem no_nl_fmtHdrLine {h : Header} (h1 : '\n' ∉ h.name.data) (h2 : '\n' ∉ h.value.data) :
    '\n' ∉ fmtHdrLine h := by
  unfold fmtHdrLine
  exact nmem_cons2 (by decide) (nmem_cons2 (by decide)
    (nmem_app h1 (nmem_cons2 (by decide) (nmem_cons2 (by decide) h2))))

theorem no_nl_fmtQueryLine {q : Header} (h1 : '\n' ∉ q.name.data) (h2 : '\n' ∉ q.value.data) :
    '\n' ∉ fmtQueryLine q := by
  unfold fmtQueryLine
  exact nmem_cons2 (by decide) (nmem_cons2 (by decide)
    (nmem_app h1 (nmem_cons2 (by decide) h2)))

theorem no_nl_firstLine (e : HarEntry)
    (hmS : ∀ x ∈ e.method.data, jsIsSpace x = false)
    (hpS : ∀ x ∈ e.path.data, jsIsSpace x = false)
    (hctS : ∀ x ∈ e.contentType.data, jsIsSpace x = false)
    (htsL : ∀ x ∈ e.timestamp.data, isLineTerm x = false)
    (hdD : ∀ x ∈ (Nat.repr e.status).data, jsIsDigit x = true) :
    '\n' ∉ firstLineOf e := by
  unfold firstLineOf
  refine nmem_app (nmem_of_all_false hmS (by decide)) ?_
  refine nmem_cons2 (by decide) ?_
  refine nmem_app (nmem_of_all_false hpS (by decide)) ?_
  refine nmem_cons2 (by decide) ?_
  refine nmem_app (nmem_of_all_true hdD (by decide)) ?_
  refine nmem_cons2 (by decide) ?_
  refine nmem_app (nmem_of_all_false hctS (by decide)) ?_
  refine nmem_cons2 (by decide) (nmem_cons2 (by decide) ?_)
  exact nmem_app (nmem_of_all_false htsL (by decide)) (by decide)

theorem no_nl_bodyLine {body : List Char} (hb : '\n' ∉ body) (hlen : body.length ≤ 200) :
    '\n' ∉ (' ' :: ' ' :: bodyPreview body) := by
  rw [show bodyPreview body = body from by
    unfold bodyPreview
    rw [if_neg (by omega)]]
  exact nmem_cons2 (by decide) (nmem_cons2 (by decide) hb)

theorem formatLines_no_nl (e : HarEntry) (hwf : EntryWF e) :
    ∀ l ∈ formatLines e, '\n' ∉ l := by
  obtain ⟨⟨hmne, hmS⟩, ⟨hpne, hpS⟩, ⟨hctne, hctS⟩, hst1, hst2, ⟨htsne, htsL⟩,
    hreq, hresp, hqry, hblen, hbnl⟩ := hwf
  have hdD := List.all_eq_true.mp (repr_status_roundtrip e.status (by omega)).1
  intro l hl
  unfold formatLines at hl
  rcases List.mem_cons.mp hl with h0 | hl
  · subst h0
    exact no_nl_firstLine e hmS hpS hctS htsL hdD
  rcases List.mem_append.mp hl with hA | hl
  · by_cases hcl : 0 < e.requestHeaders.length
    · rw [if_pos hcl] at hA
      rcases List.mem_cons.mp hA with h0 | hA
      · subst h0
        decide
      · obtain ⟨h, hh, rfl⟩ := List.mem_map.mp hA
        exact no_nl_fmtHdrLine (hreq h hh).2.2.1 (hreq h hh).2.2.2
    · rw [if_neg hcl] at hA
      exact absurd hA (List.not_mem_nil l)
  rcases List.mem_append.mp hl with hB | hl
  · by_cases hcl : 0 < e.queryString.length
    · rw [if_pos hcl] at hB
      rcases List.mem_cons.mp hB with h0 | hB
      · subst h0
        decide
      · obtain ⟨q, hq, rfl⟩ := List.mem_map.mp hB
        exact no_nl_fmtQueryLine (hqry q hq).2.2.1 (hqry q hq).2.2.2
    · rw [if_neg hcl] at hB
      exact absurd hB (List.not_mem_nil l)
  rcases List.mem_append.mp hl with hC | hD
  · by_cases hcl : 0 < e.responseHeaders.length
    · rw [if_pos hcl] at hC
      rcases List.mem_cons.mp hC with h0 | hC
      · subst h0
        decide
      · obtain ⟨h, hh, rfl⟩ := List.mem_map.mp hC
        exact no_nl_fmtHdrLine (hresp h hh).2.2.1 (hresp h hh).2.2.2
    · rw [if_neg hcl] at hC
      exact absurd hC (List.not_mem_nil l)
  · by_cases hbne : e.responseBody.data ≠ []
    · rw [if_pos hbne] at hD
      rcases List.mem_cons.mp hD with h0 | hD
      · subst h0
        decide
      rcases List.mem_cons.mp hD with h1 | hD
      · subst h1
        exact no_nl_bodyLine hbnl hblen
      · exact absurd hD (List.not_mem_nil l)
    · rw [if_neg hbne] at hD
      exact absurd hD (List.not_mem_nil l)

theorem pfe_steps (text : String) (first : List Char) (rest : List (List Char))
    (m p st ct ts : List Char)
    (hsplit : splitNl text.data = first :: rest)
    (hfirst : parseFirstLine first = some (m, p, st, ct, ts)) :
    parseFormattedEntry text
      = some (processLines rest ""
          { method := ⟨m⟩
            url := "http://localhost" ++ ⟨p⟩
            path := ⟨p⟩
            queryString := []
            requestHeaders := []
            status := digitsToNat st
            responseHeaders := []
            responseBody := ""
            contentType := ⟨ct⟩
            timestamp := ⟨ts⟩ }) := by
  unfold parseFormattedEntry
  rw [hsplit]
  simp only [hfirst]

/-- Master roundtrip lemma for the text codec: on a well-formed entry the
parser rebuilds the formatted entry exactly, except that the URL is
re-derived as `http://localhost{path}` and a trailing `...` is stripped
from the body (the body-section line loses 3 characters when the recorded
body happens to end in the truncation marker). -/
theorem parse_format_roundtrip (e : HarEntry) (hwf : EntryWF e) :
    parseFormattedEntry (formatEntry e)
      = some { e with
          url := "http://localhost" ++ e.path,
          responseBody :=
            ⟨if "...".data.isSuffixOf e.responseBody.data
              then e.responseBody.data.take (e.responseBody.data.length - 3)
              else e.responseBody.data⟩ } := by
  have hwf' := hwf
  obtain ⟨⟨hmne, hmS⟩, ⟨hpne, hpS⟩, ⟨hctne, hctS⟩, hst1, hst2, ⟨htsne, htsL⟩,
    hreq, hresp, hqry, hblen, hbnl⟩ := hwf'
  have hstat := repr_status_roundtrip e.status (by omega)
  have hnl := formatLines_no_nl e hwf
  have hsplit : splitNl (formatEntry e).data
      = firstLineOf e ::
        ((if 0 < e.requestHeaders.length then
            "Request Headers:".data :: e.requestHeaders.map fmtHdrLine else [])
         ++ ((if 0 < e.queryString.length then
                "Query Parameters:".data :: e.queryString.map fmtQueryLine else [])
             ++ ((if 0 < e.responseHeaders.length then
                    "Response Headers:".data :: e.responseHeaders.map fmtHdrLine else [])
                 ++ (if e.responseBody.data ≠ [] then
                       ["Response Body:".data, ' ' :: ' ' :: bodyPreview e.responseBody.data]
                     else [])))) := by
    rw [show (formatEntry e).data = joinNl (formatLines e) from rfl]
    exact splitNl_joinNl (formatLines e) (by unfold formatLines; simp) hnl
  have hfirst : parseFirstLine (firstLineOf e)
      = some (e.method.data, e.path.data, (Nat.repr e.status).data,
              e.contentType.data, e.timestamp.data) :=
    parseFirstLine_fmt e.method.data e.path.data (Nat.repr e.status).data
      e.contentType.data e.timestamp.data hmne hmS hpne hpS hstat.2.1
      (List.all_eq_true.mp hstat.1) hctne hctS htsne htsL
  rw [pfe_steps (formatEntry e) _ _ _ _ _ _ _ hsplit hfirst]
  rw [process_req_section e.requestHeaders _ _ _
    (fun h hh => ⟨(hreq h hh).1, (hreq h hh).2.1⟩)]
  rw [process_qry_section e.queryString _ _ _
    (fun q hq => ⟨(hqry q hq).1, (hqry q hq).2.1⟩)]
  rw [process_resp_section e.responseHeaders _ _ _
    (fun h hh => ⟨(hresp h hh).1, (hresp h hh).2.1⟩)]
  rw [process_body_section e.responseBody.data _ _ hblen rfl]
  show some (HarEntry.mk ⟨e.method.data⟩ ("http://localhost" ++ ⟨e.path.data⟩)
      ⟨e.path.data⟩ ([] ++ e.queryString) ([] ++ e.requestHeaders)
      (digitsToNat (Nat.repr e.status).data) ([] ++ e.responseHeaders)
      ⟨if "...".data.isSuffixOf e.responseBody.data
        then e.responseBody.data.take (e.responseBody.data.length - 3)
        else e.responseBody.data⟩
      ⟨e.contentType.data⟩ ⟨e.timestamp.data⟩) = _
  rw [List.nil_append, List.nil_append, List.nil_append, hstat.2.2]

/-- A newline-free entry whose 4-character body ends in the truncation
marker: the codec strips the marker even though nothing was truncated. -/
def entryCX : HarEntry :=
  { method := "GET"
    url := "http://localhost/c"
    path := "/c"
    queryString := []
    requestHeaders := []
    status := 200
    responseHeaders := []
    responseBody := "x..."
    contentType := "application/json"
    timestamp := "2024-01-01T00:00:00.000Z" }

/-- C2 counterexample: `entryCX` satisfies every hypothesis of the claim
(body of length 4 ≤ 200; all header/query names and values trivially
newline-free), yet `parseFormattedEntry (formatEntry entryCX)` returns the
body `"x"`, not the original `"x..."`. -/
theorem C2_roundtrip_counterexample :
    entryCX.responseBody.data.length ≤ 200 ∧
    (∀ h ∈ entryCX.requestHeaders, '\n' ∉ h.name.data ∧ '\n' ∉ h.value.data) ∧
    (∀ h ∈ entryCX.responseHeaders, '\n' ∉ h.name.data ∧ '\n' ∉ h.value.data) ∧
    (∀ q ∈ entryCX.queryString, '\n' ∉ q.name.data ∧ '\n' ∉ q.value.data) ∧
    (parseFormattedEntry (formatEntry entryCX)).map HarEntry.responseBody = some "x" ∧
    ("x" : String) ≠ entryCX.responseBody := by
  refine ⟨by decide, by decide, by decide, by decide, ?_, by decide⟩
  rfl

/-- C2 (amended): for every well-formed entry (non-empty whitespace-free
method, path and content type; HTTP status; timestamp without line
terminators; header and query names non-empty without the respective
separators or newlines; body of at most 200 newline-free characters) whose
body does not end in the three characters of the truncation marker,
`parseFormattedEntry (formatEntry e)` reproduces method, path, status,
contentType, timestamp, every header pair, every query pair (in order) and
the responseBody exactly — the whole record except `url`, which is
re-derived as `http://localhost{path}`. -/
theorem C2_roundtrip_amended (e : HarEntry) (hwf : EntryWF e)
    (hm : "...".data.isSuffixOf e.responseBody.data = false) :
    parseFormattedEntry (formatEntry e)
      = some { e with url := "http://localhost" ++ e.path } := by
  rw [parse_format_roundtrip e hwf, hm]
  rfl

/-- A representative entry with one request header, one query parameter and
one response header for the C2 witness. -/
def entryRT : HarEntry :=
  { method := "GET"
    url := "http://localhost/rt?x=1"
    path := "/rt"
    queryString := [⟨"x", "1"⟩]
    requestHeaders := [⟨"Accept", "application/json"⟩]
    status := 200
    responseHeaders := [⟨"Content-Type", "application/json"⟩]
    responseBody := "hello"
    contentType := "application/json"
    timestamp := "2024-01-01T00:00:00.000Z" }

theorem C2_roundtrip_amended_witness :
    EntryWF entryRT ∧
    "...".data.isSuffixOf entryRT.responseBody.data = false ∧
    parseFormattedEntry (formatEntry entryRT)
      = some { entryRT with url := "http://localhost" ++ entryRT.path } :=
  ⟨by decide, by decide, C2_roundtrip_amended entryRT (by decide) (by decide)⟩

/-- C9: for every well-formed entry with a non-empty body of at most 200
newline-free characters that ends in the three characters `...`, the codec
returns the body with those final three characters removed, which differs
from the original body: the round-trip is lossy inside the 200-character
limit. -/
theorem C9_truncation_marker (e : HarEntry) (hwf : EntryWF e)
    (hne : e.responseBody.data ≠ [])
    (hm : "...".data.isSuffixOf e.responseBody.data = true) :
    (parseFormattedEntry (formatEntry e)).map HarEntry.responseBody
      = some ⟨e.responseBody.data.take (e.responseBody.data.length - 3)⟩ ∧
    (parseFormattedEntry (formatEntry e)).map HarEntry.responseBody
      ≠ some e.responseBody := by
  have hlen3 : 3 ≤ e.responseBody.data.length := by
    have hsuf : "...".data <:+ e.responseBody.data := List.isSuffixOf_iff_suffix.mp hm
    simpa using hsuf.length_le
  rw [parse_format_roundtrip e hwf, hm]
  constructor
  · rfl
  · intro hc
    have hdata : e.responseBody.data.take (e.responseBody.data.length - 3)
        = e.responseBody.data := congrArg String.data (Option.some.inj hc)
    have hlt := congrArg List.length hdata
    rw [List.length_take] at hlt
    omega

/-- An entry whose 6-character body `abc...` ends in the truncation
marker. -/
def entryTM : HarEntry :=
  { method := "GET"
    url := "http://localhost/t"
    path := "/t"
    queryString := []
    requestHeaders := []
    status := 200
    responseHeaders := []
    responseBody := "abc..."
    contentType := "text/plain"
    timestamp := "2024-01-01T00:00:00.000Z" }

theorem C9_truncation_marker_witness :
    EntryWF entryTM ∧ entryTM.responseBody.data ≠ [] ∧
    "...".data.isSuffixOf entryTM.responseBody.data = true ∧
    ((parseFormattedEntry (formatEntry entryTM)).map HarEntry.responseBody
        = some ⟨entryTM.responseBody.data.take (entryTM.responseBody.data.length - 3)⟩ ∧
     (parseFormattedEntry (formatEntry entryTM)).map HarEntry.responseBody
        ≠ some entryTM.responseBody) :=
  ⟨by decide, by decide, by decide,
    C9_truncation_marker entryTM (by decide) (by decide) (by decide)⟩
